import Mathlib

/-!
# Runway: properties, constraints, transitions, timers

A shallow embedding of `src/sandbox/Property.hh`.

* `float` arithmetic is read as exact arithmetic over `ℚ`.
* `int` is `Int` with explicit wrapping to 32 bits (`wrapInt32`).
* A `std::function` closure that captured references is a function that
  receives, and hands back, the state `E` behind those references.
* A `std::list` node is a pair of its identity (what a `const_iterator`
  designates) and its payload; a new node gets an identity that no node
  currently in the list has.
-/

namespace Runway

/-! ## `Constraint<T>` and `ValueProperty<T>` (Property.hh 22-61) -/

/-- `template <typename T> using Constraint = std::function<T(T const &_value)>`.
The closure may hold references to objects outside the property; `E` is the
state of those objects, which a call can read and, through a nested `get()`,
update. -/
abbrev Constraint (E T : Type) := T → E → T × E

/-- A closure that captured nothing by reference: it only maps the value. -/
def Constraint.pure {E T : Type} (f : T → T) : Constraint E T :=
  fun _value env => (f _value, env)

/-- `ConstraintID`: a `std::list` const_iterator, i.e. the identity of a node. -/
abbrev ConstraintID := Nat

/-- `struct ValueProperty`: the list of constraints and the stored `value`. -/
structure ValueProperty (E T : Type) where
  constraints : List (ConstraintID × Constraint E T)
  value : T

/-- `struct Property : ValueProperty<T>` (adds a working `set`). -/
abbrev Property (E T : Type) := ValueProperty E T

/-- `struct DependentProperty : ValueProperty<T>` (adds nothing). -/
abbrev DependentProperty (E T : Type) := ValueProperty E T

/-- `std::accumulate(first, last, init, op)` with
`op = [](T const &_acc, Constraint<T> &foo) { return foo(_acc); }`:
the nodes are visited front to back, each closure receiving the accumulator. -/
def accumulate {E T : Type} : List (ConstraintID × Constraint E T) → T → E → T × E
  | [], _acc, env => (_acc, env)
  | node :: rest, _acc, env => accumulate rest (node.2 _acc env).1 (node.2 _acc env).2

/-- Identity given to a node allocated while the nodes `cs` are alive: it
differs from the identity of each of them. -/
def freshNode {E T : Type} (cs : List (ConstraintID × Constraint E T)) : ConstraintID :=
  cs.foldr (fun node m => max node.1 m) 0 + 1

/-- `std::list::push_back`: a new node, holding `c`, linked after the last one. -/
def push_back {E T : Type} (cs : List (ConstraintID × Constraint E T)) (c : Constraint E T) :
    List (ConstraintID × Constraint E T) :=
  cs ++ [(freshNode cs, c)]

namespace ValueProperty

variable {E T : Type}

/-- `applyConstraints()`: `this->value = std::accumulate(..., this->value, ...)`. -/
def applyConstraints (p : ValueProperty E T) (env : E) : ValueProperty E T × E :=
  ({ p with value := (accumulate p.constraints p.value env).1 },
   (accumulate p.constraints p.value env).2)

/-- `get()`: `applyConstraints(); return this->value;`.  Returns the value,
the property afterwards and the captured state afterwards. -/
def get (p : ValueProperty E T) (env : E) : T × ValueProperty E T × E :=
  ((p.applyConstraints env).1.value, (p.applyConstraints env).1, (p.applyConstraints env).2)

/-- `explicit operator T const &() const`: the stored value, no constraint run. -/
def toT (p : ValueProperty E T) : T := p.value

/-- `ValueProperty::set`: `throw std::runtime_error("invalid operation")`.
Returns the outcome and the property afterwards. -/
def set (p : ValueProperty E T) (_value : T) : Except String T × ValueProperty E T :=
  (Except.error "invalid operation", p)

/-- `addConstraint`: `constraints.push_back(_constraint)`, then
`std::prev(constraints.cend(), 1)`, the iterator to the new last node. -/
def addConstraint (p : ValueProperty E T) (_constraint : Constraint E T) :
    ConstraintID × ValueProperty E T :=
  (freshNode p.constraints,
   { p with constraints := push_back p.constraints _constraint })

/-- `removeConstraint`: `constraints.erase(_cid)`, unlinking the node that
`_cid` designates.  (Erasing with an iterator to no node of the list is
undefined in C++; here it leaves the list as it is.) -/
def removeConstraint (p : ValueProperty E T) (_cid : ConstraintID) : ValueProperty E T :=
  { p with constraints := p.constraints.eraseP (fun node => node.1 == _cid) }

end ValueProperty

namespace Property

variable {E T : Type}

/-- `Property::set`: `return this->value = _value;`. -/
def set (p : Property E T) (_value : T) : T × Property E T :=
  (_value, { p with value := _value })

/-- `Property() = default`: no constraint, `T value {}`. -/
def default [Zero T] : Property E T := { constraints := [], value := 0 }

/-- `Property(T const &_value) { this->set(_value); }`. -/
def new [Zero T] (_value : T) : Property E T := (set default _value).2

/-- `operator +=`: `return this->set(this->value + _value);`. -/
def addAssign [Add T] (p : Property E T) (_value : T) : T × Property E T :=
  set p (p.value + _value)

/-- `operator -=`: `return this->set(this->value - _value);`. -/
def subAssign [Sub T] (p : Property E T) (_value : T) : T × Property E T :=
  set p (p.value - _value)

end Property

namespace DependentProperty

variable {E T : Type}

/-- `DependentProperty` declares no `set`: the call resolves to
`ValueProperty::set`. -/
def set (p : DependentProperty E T) (_value : T) : Except String T × DependentProperty E T :=
  ValueProperty.set p _value

/-- Implicit default constructor: no constraint, `T value {}`. -/
def default [Zero T] : DependentProperty E T := { constraints := [], value := 0 }

end DependentProperty

/-! ## `Rect` (Property.hh 98-126) -/

/-- Storage of the `phase` members of the `Transition` objects, by object
identity: what a closure that captured `&phase` reads. -/
abbrev Phases := Nat → ℚ

/-- What a closure of `Rect::setConstraints` reaches through its two captured
references (`&left, &width`, resp. `&top, &height`): the two properties and,
through their own constraints, the phases. -/
structure RectCapture where
  a : Property Phases ℚ
  b : Property Phases ℚ
  phases : Phases

/-- The closure `[&left, &width](float const &_val) { return left.get()+width.get(); }`
(and the same for top/height): `_val` is ignored, both operands are read
through `get()`, left operand first. -/
def Rect.sumLambda : Constraint RectCapture ℚ :=
  fun _val env =>
    ((env.a.get env.phases).1 + (env.b.get (env.a.get env.phases).2.2).1,
     { a := (env.a.get env.phases).2.1,
       b := (env.b.get (env.a.get env.phases).2.2).2.1,
       phases := (env.b.get (env.a.get env.phases).2.2).2.2 })

/-- `class Rect`: four `Property<float>` and two `DependentProperty<float>`. -/
structure Rect where
  left : Property Phases ℚ
  top : Property Phases ℚ
  width : Property Phases ℚ
  height : Property Phases ℚ
  right : DependentProperty RectCapture ℚ
  bottom : DependentProperty RectCapture ℚ

namespace Rect

/-- `Rect::setConstraints`: one `push_back` on `right.constraints`, one on
`bottom.constraints`. -/
def setConstraints (r : Rect) : Rect :=
  { r with
    right := { r.right with constraints := push_back r.right.constraints sumLambda }
    bottom := { r.bottom with constraints := push_back r.bottom.constraints sumLambda } }

/-- `Rect() { this->setConstraints(); }` on default-constructed members. -/
def new : Rect :=
  setConstraints
    { left := Property.default, top := Property.default, width := Property.default,
      height := Property.default, right := DependentProperty.default,
      bottom := DependentProperty.default }

/-- The call `rect.left.get()`. -/
def getLeft (r : Rect) (ph : Phases) : ℚ × Rect × Phases :=
  ((r.left.get ph).1, { r with left := (r.left.get ph).2.1 }, (r.left.get ph).2.2)

/-- The call `rect.top.get()`. -/
def getTop (r : Rect) (ph : Phases) : ℚ × Rect × Phases :=
  ((r.top.get ph).1, { r with top := (r.top.get ph).2.1 }, (r.top.get ph).2.2)

/-- The call `rect.width.get()`. -/
def getWidth (r : Rect) (ph : Phases) : ℚ × Rect × Phases :=
  ((r.width.get ph).1, { r with width := (r.width.get ph).2.1 }, (r.width.get ph).2.2)

/-- The call `rect.height.get()`. -/
def getHeight (r : Rect) (ph : Phases) : ℚ × Rect × Phases :=
  ((r.height.get ph).1, { r with height := (r.height.get ph).2.1 }, (r.height.get ph).2.2)

/-- The call `rect.right.get()`: the closures of `right` run on `left` and
`width`, which come back as the closures left them. -/
def getRight (r : Rect) (ph : Phases) : ℚ × Rect × Phases :=
  ((r.right.get ⟨r.left, r.width, ph⟩).1,
   { r with
     right := (r.right.get ⟨r.left, r.width, ph⟩).2.1
     left := (r.right.get ⟨r.left, r.width, ph⟩).2.2.a
     width := (r.right.get ⟨r.left, r.width, ph⟩).2.2.b },
   (r.right.get ⟨r.left, r.width, ph⟩).2.2.phases)

/-- The call `rect.bottom.get()`. -/
def getBottom (r : Rect) (ph : Phases) : ℚ × Rect × Phases :=
  ((r.bottom.get ⟨r.top, r.height, ph⟩).1,
   { r with
     bottom := (r.bottom.get ⟨r.top, r.height, ph⟩).2.1
     top := (r.bottom.get ⟨r.top, r.height, ph⟩).2.2.a
     height := (r.bottom.get ⟨r.top, r.height, ph⟩).2.2.b },
   (r.bottom.get ⟨r.top, r.height, ph⟩).2.2.phases)

end Rect

/-- A call a client can make on the public members of a `Rect`: `set` on one of
the four `Property` members, `get` on any of the six members. -/
inductive RectCall where
  | setLeft (v : ℚ)
  | setTop (v : ℚ)
  | setWidth (v : ℚ)
  | setHeight (v : ℚ)
  | getLeft
  | getTop
  | getWidth
  | getHeight
  | getRight
  | getBottom

/-- The rectangle after one call (no `Transition` exists: the phases are not
written). -/
def Rect.call (ph : Phases) (r : Rect) : RectCall → Rect
  | .setLeft v => { r with left := (Property.set r.left v).2 }
  | .setTop v => { r with top := (Property.set r.top v).2 }
  | .setWidth v => { r with width := (Property.set r.width v).2 }
  | .setHeight v => { r with height := (Property.set r.height v).2 }
  | .getLeft => (r.getLeft ph).2.1
  | .getTop => (r.getTop ph).2.1
  | .getWidth => (r.getWidth ph).2.1
  | .getHeight => (r.getHeight ph).2.1
  | .getRight => (r.getRight ph).2.1
  | .getBottom => (r.getBottom ph).2.1

/-- The rectangle after a sequence of calls, first call first. -/
def Rect.calls (ph : Phases) (r : Rect) (cs : List RectCall) : Rect :=
  cs.foldl (Rect.call ph) r

/-- The comparison `right.get() == left.get() + width.get()`, the three reads
made one after the other on the rectangle. -/
def Rect.rightIsSum (r : Rect) (ph : Phases) : Prop :=
  (r.getRight ph).1 =
    ((r.getRight ph).2.1.getLeft (r.getRight ph).2.2).1 +
      (((r.getRight ph).2.1.getLeft (r.getRight ph).2.2).2.1.getWidth
        ((r.getRight ph).2.1.getLeft (r.getRight ph).2.2).2.2).1

/-- The comparison `bottom.get() == top.get() + height.get()`. -/
def Rect.bottomIsSum (r : Rect) (ph : Phases) : Prop :=
  (r.getBottom ph).1 =
    ((r.getBottom ph).2.1.getTop (r.getBottom ph).2.2).1 +
      (((r.getBottom ph).2.1.getTop (r.getBottom ph).2.2).2.1.getHeight
        ((r.getBottom ph).2.1.getTop (r.getBottom ph).2.2).2.2).1

/-! ## `Transition` (Property.hh 188-216) -/

/-- `class Transition<float>`.  `self` is the identity of the object: its
`phase` member is `phases self`.  `target_value` is the copy held by the
installed closure; the member `property` is a reference, so the property is
passed to each operation. -/
structure Transition where
  self : Nat
  target_value : ℚ
  transition_constraint_id : ConstraintID

namespace Transition

/-- The closure `[&phase = this->phase, target_value = _target_value](T const &_val)
{ return _val * (1.f - phase) + target_value * phase; }`. -/
def lambda (self : Nat) (target_value : ℚ) : Constraint Phases ℚ :=
  fun _val phases => (_val * (1 - phases self) + target_value * phases self, phases)

/-- The constructor: `phase {0.f}`, then `addConstraint` with the closure, the
returned iterator kept in `transition_constraint_id`. -/
def ctor (self : Nat) (_property : Property Phases ℚ) (phases : Phases) (_target_value : ℚ) :
    Transition × Property Phases ℚ × Phases :=
  ({ self := self
     target_value := _target_value
     transition_constraint_id := (_property.addConstraint (lambda self _target_value)).1 },
   (_property.addConstraint (lambda self _target_value)).2,
   Function.update phases self 0)

/-- The destructor: `property.removeConstraint(transition_constraint_id)`. -/
def dtor (t : Transition) (property : Property Phases ℚ) : Property Phases ℚ :=
  property.removeConstraint t.transition_constraint_id

/-- `setPhase`: `this->phase = _phase`. -/
def setPhase (t : Transition) (phases : Phases) (_phase : ℚ) : Phases :=
  Function.update phases t.self _phase

/-- The node that the constructor of `t` linked into the chain. -/
def node (t : Transition) : ConstraintID × Constraint Phases ℚ :=
  (t.transition_constraint_id, lambda t.self t.target_value)

end Transition

/-- One property together with the `Transition` objects currently alive on
it, oldest first, and the storage of their phases. -/
structure Scope where
  property : Property Phases ℚ
  phases : Phases
  live : List Transition

/-- What client code does with the property and its transitions. -/
inductive ScopeOp where
  | construct (target : ℚ)
  | destroy (k : Nat)
  | setPhase (k : Nat) (p : ℚ)
  | get
  | set (v : ℚ)

/-- Identity of an object created while the objects `live` exist. -/
def freshObject (live : List Transition) : Nat :=
  live.foldr (fun t m => max t.self m) 0 + 1

/-- One operation: `construct` runs the constructor of a new `Transition`,
`destroy k` the destructor of the `k`-th live one, `setPhase k p` its
`setPhase`, `get` and `set v` the property's own members.  An index that
designates no live object makes the operation void. -/
def Scope.step (s : Scope) : ScopeOp → Scope
  | .construct target =>
      { property := (Transition.ctor (freshObject s.live) s.property s.phases target).2.1
        phases := (Transition.ctor (freshObject s.live) s.property s.phases target).2.2
        live := s.live ++ [(Transition.ctor (freshObject s.live) s.property s.phases target).1] }
  | .destroy k =>
      match s.live[k]? with
      | none => s
      | some t => { s with property := t.dtor s.property, live := s.live.eraseIdx k }
  | .setPhase k p =>
      match s.live[k]? with
      | none => s
      | some t => { s with phases := t.setPhase s.phases p }
  | .get => { s with property := (s.property.get s.phases).2.1, phases := (s.property.get s.phases).2.2 }
  | .set v => { s with property := (Property.set s.property v).2 }

/-- A sequence of operations, first one first. -/
def Scope.run (s : Scope) (ops : List ScopeOp) : Scope :=
  ops.foldl Scope.step s

/-! ## `startTimer` and `TimedTransition` (Property.hh 218-275) -/

/-- The value of an `int` expression whose mathematical value is `x`,
wrapped to 32 bits two's complement. -/
def wrapInt32 (x : Int) : Int :=
  (x + 2147483648) % 4294967296 - 2147483648

/-- The task launched by `startTimer`: either inside the loop, about to wait,
with the local `int i` and the state `W` that the handler and the promise
live in, or past the loop. -/
inductive TimerTask (W : Type) where
  | running (i : Int) (world : W)
  | finished (world : W)

/-- One round of `while (done.wait_for(interval) != std::future_status::ready)
{ handler(i++); }`: during the wait the other threads do `during`; if the
future is then ready the loop is left, otherwise the handler runs with the
current `i`, which is incremented. -/
def timerStep {W : Type} (ready : W → Bool) (handler : Int → W → W) (during : W → W) :
    TimerTask W → TimerTask W
  | .running i world =>
      if ready (during world) then .finished (during world)
      else .running (wrapInt32 (i + 1)) (handler i (during world))
  | .finished world => .finished world

/-- The task of `startTimer` run for at most `fuel` rounds from `int i {0}`:
the state it ends in, or `none` when it is still in the loop. -/
def startTimer {W : Type} (ready : W → Bool) (handler : Int → W → W) (during : W → W)
    (fuel : Nat) (world : W) : Option W :=
  match (timerStep ready handler during)^[fuel] (.running 0 world) with
  | .running _ _ => none
  | .finished w => some w

/-- What the timer of a `TimedTransition` works on: the phases, whether the
promise `brake` has been given its value, and the lines
`transition_timer: <iter>:<phase>` written so far. -/
structure TimerWorld where
  phases : Phases
  brake : Bool
  out : List (Int × ℚ)

namespace TimedTransition

/-- `cancel()`: `brake.set_value()`; the `std::future_error` of a second
`set_value` is caught and dropped. -/
def cancel (w : TimerWorld) : TimerWorld :=
  if w.brake then w else { w with brake := true }

/-- The handler `[this, _steps](int const _iter)` given to `startTimer`:
`if (_iter == _steps) this->cancel();`
`this->setPhase((_iter + 1.f) / (_steps + 1));` and the output line, which
shows `_iter` and `this->phase`. -/
def handler (t : Transition) (_steps : Int) (_iter : Int) (w : TimerWorld) : TimerWorld :=
  { phases :=
      t.setPhase (if _iter = _steps then cancel w else w).phases
        (((_iter : ℚ) + 1) / ((wrapInt32 (_steps + 1) : Int) : ℚ))
    brake := (if _iter = _steps then cancel w else w).brake
    out := w.out ++
      [(_iter,
        (t.setPhase (if _iter = _steps then cancel w else w).phases
          (((_iter : ℚ) + 1) / ((wrapInt32 (_steps + 1) : Int) : ℚ))) t.self)] }

/-- The future `done` of `startTimer` is ready once `brake` has its value. -/
def ready (w : TimerWorld) : Bool := w.brake

/-- The timer task of a `TimedTransition` with `_steps` steps after `n` rounds,
no other thread touching the promise. -/
def task (t : Transition) (_steps : Int) (w : TimerWorld) (n : Nat) : TimerTask TimerWorld :=
  (timerStep ready (handler t _steps) id)^[n] (.running 0 w)

end TimedTransition

/-- The state that the handler and the promise live in, wherever the task is. -/
def TimerTask.world {W : Type} : TimerTask W → W
  | .running _ w => w
  | .finished w => w

/-! ## Chains of closures that capture nothing -/

/-- The nodes of a chain whose closures capture nothing by reference: node
`n` holds the function `n.2`. -/
def pureNodes {E T : Type} (nodes : List (ConstraintID × (T → T))) :
    List (ConstraintID × Constraint E T) :=
  nodes.map (fun n => (n.1, Constraint.pure n.2))

/-- Composition of the functions of `nodes`, first node applied first. -/
def foldPure {T : Type} (nodes : List (ConstraintID × (T → T))) (v : T) : T :=
  nodes.foldl (fun acc n => n.2 acc) v

/-- The property obtained from `p` by `addConstraint` of each closure of `fs`
in turn. -/
def addAll {E T : Type} (p : ValueProperty E T) (fs : List (Constraint E T)) : ValueProperty E T :=
  fs.foldl (fun q f => (q.addConstraint f).2) p

/-- The property obtained from `p` by `set` of each value of `vs` in turn. -/
def setAll {E T : Type} (p : Property E T) (vs : List T) : Property E T :=
  vs.foldl (fun q v => (Property.set q v).2) p

/-- The wiring of a `Rect` no client call has changed: the four `Property`
members carry no constraint, `right` and `bottom` carry the single closure
that `setConstraints` installed. -/
def Rect.Wired (r : Rect) : Prop :=
  r.left.constraints = [] ∧ r.top.constraints = [] ∧
  r.width.constraints = [] ∧ r.height.constraints = [] ∧
  r.right.constraints = [(1, Rect.sumLambda)] ∧ r.bottom.constraints = [(1, Rect.sumLambda)]

/-- The rectangle `r` with `x` and `y` as the values stored in `right` and
`bottom`. -/
def Rect.withStored (r : Rect) (x y : ℚ) : Rect :=
  { r with right := { r.right with value := x }, bottom := { r.bottom with value := y } }

/-- The chain of `s` is the chain `prior` followed by the nodes of the live
transitions, oldest first; the handles of the live transitions are pairwise
distinct and designate no node of `prior`. -/
def Scope.Balanced (prior : List (ConstraintID × Constraint Phases ℚ)) (s : Scope) : Prop :=
  s.property.constraints = prior ++ s.live.map Transition.node ∧
  (s.live.map Transition.transition_constraint_id).Nodup ∧
  ∀ t ∈ s.live, ∀ n ∈ prior, n.1 ≠ t.transition_constraint_id

/-- The world a `TimedTransition` starts its timer in: the promise has no
value yet and nothing has been written. -/
def TimedTransition.start (phases : Phases) : TimerWorld :=
  { phases := phases, brake := false, out := [] }

/-- The output line of the handler call with index `i`. -/
def TimedTransition.line (_steps : Int) (i : Nat) : Int × ℚ :=
  ((i : Int), (((i : Int) : ℚ) + 1) / ((wrapInt32 (_steps + 1) : Int) : ℚ))

/-! ## Further operations of the timer and of repeated reads -/

/-- `std::promise<void>::set_value()`: on a promise that already has its value
it throws `std::future_error` (promise_already_satisfied), otherwise it stores
the value.  Returns the outcome and whether the promise has its value. -/
def promise_set_value (brake : Bool) : Except String Unit × Bool :=
  if brake then (Except.error "std::future_error", brake) else (Except.ok (), true)

/-- `TimedTransition::cancel()` with its `try { brake.set_value(); }
catch (std::future_error const &_err) { }` spelled out: the outcome of the
call and the world afterwards. -/
def TimedTransition.cancelCall (w : TimerWorld) : Except String Unit × TimerWorld :=
  match (promise_set_value w.brake).1 with
  | Except.ok _ => (Except.ok (), { w with brake := (promise_set_value w.brake).2 })
  | Except.error _ => (Except.ok (), { w with brake := (promise_set_value w.brake).2 })

/-- The phase that the handler call with index `_iter` leaves in the
`phase` member of the transition. -/
def TimedTransition.phaseAt (t : Transition) (_steps : Int) (_iter : Int) (w : TimerWorld) : ℚ :=
  (TimedTransition.handler t _steps _iter w).phases t.self

/-- The property and the captured state after `k` consecutive `get()` calls. -/
def ValueProperty.afterReads {E T : Type} (p : ValueProperty E T) (env : E) :
    Nat → ValueProperty E T × E
  | 0 => (p, env)
  | k + 1 => ((p.afterReads env k).1.get (p.afterReads env k).2).2

/-- What the `k`-th of `k` consecutive `get()` calls returns, `k = n + 1`. -/
def ValueProperty.readNo {E T : Type} (p : ValueProperty E T) (env : E) (n : Nat) : T :=
  ((p.afterReads env n).1.get (p.afterReads env n).2).1

/-! ## `Surface`, `Compositor::makeSurface`, `Grab` (Property.hh 128-186) -/

/-- `struct Buffer { void *data; size_t size; }`, the pointer as an address. -/
structure Buffer where
  data : Nat
  size : Nat

/-- `class Surface`: `id`, `rect`, `data`. -/
structure Surface where
  id : String
  rect : Rect
  data : Buffer

/-- The object made by `std::make_unique<Surface>()`: empty `id`, `Rect()`,
zeroed `data`. -/
def Surface.new : Surface :=
  { id := "", rect := Rect.new, data := { data := 0, size := 0 } }

/-- `Compositor::makeSurface()`.  `Names.hh` is not among the sources: the
table `names::strs` is the parameter `strs` and `names::strs_num` is its
number of entries.  `counter` is the function's `static size_t counter`; the
result is the outcome of the call and the counter afterwards.
`if (counter >= names::strs_num) throw "Out of names";`
`surface->id = names::strs[counter++];`. -/
def Compositor.makeSurface (strs : List String) (counter : Nat) : Except String Surface × Nat :=
  if h : strs.length ≤ counter then (Except.error "Out of names", counter)
  else (Except.ok { Surface.new with id := strs.get ⟨counter, Nat.lt_of_not_le h⟩ }, counter + 1)

/-- The outcomes of `n` successive `makeSurface()` calls, first call first,
and the counter after them, starting from the counter value `counter`. -/
def Compositor.makeSurfaces (strs : List String) : Nat → Nat → List (Except String Surface) × Nat
  | 0, counter => ([], counter)
  | n + 1, counter =>
      ((Compositor.makeSurface strs counter).1 ::
          (Compositor.makeSurfaces strs n (Compositor.makeSurface strs counter).2).1,
        (Compositor.makeSurfaces strs n (Compositor.makeSurface strs counter).2).2)

/-- Modelled from the spec: `Vec2f` of `ge/Vector.hh`, which is not among the
sources: a vector of two `float` components `x` and `y`. -/
structure Vec2f where
  x : ℚ
  y : ℚ

/-- Modelled from the spec: `operator +` of `Vec2f`, componentwise, as the
accumulation of a drag delta. -/
def Vec2f.add (a b : Vec2f) : Vec2f :=
  { x := a.x + b.x, y := a.y + b.y }

/-- `class Grab`.  The member `surface` is a `shared_ptr`: the surface it
points to is passed to the destructor. -/
structure Grab where
  origin : Vec2f
  offset : Vec2f

namespace Grab

/-- `Grab(_surface, _origin)`: `origin {_origin}`, `offset {}`. -/
def ctor (_origin : Vec2f) : Grab :=
  { origin := _origin, offset := { x := 0, y := 0 } }

/-- `~Grab()`: `surface->rect.left += offset.x; surface->rect.top += offset.y;`. -/
def dtor (g : Grab) (surface : Surface) : Surface :=
  { surface with
    rect :=
      { surface.rect with
        left := (Property.addAssign surface.rect.left g.offset.x).2
        top := (Property.addAssign surface.rect.top g.offset.y).2 } }

end Grab

/-! ## `constraints::Follow` (Property.hh 277-289) -/

/-- What a `Follow` closure reaches through its member
`ValueProperty<T> &target`: the target property and the state behind the
target's own closures. -/
structure FollowCapture (E T : Type) where
  target : ValueProperty E T
  env : E

/-- `constraints::Follow::operator()`: `return this->target.get();`, the
argument `_val` being ignored. -/
def constraints.Follow {E T : Type} : Constraint (FollowCapture E T) T :=
  fun _val c =>
    ((c.target.get c.env).1,
     { target := (c.target.get c.env).2.1, env := (c.target.get c.env).2.2 })

/-! ## `Rect::asTuple` and `Compositor::compose` (Property.hh 110-152) -/

/-- The four arguments of the call
`std::tuple(left.get(), top.get(), right.get(), bottom.get())` in
`Rect::asTuple()`, named after the member each one reads. -/
inductive TupleArg where
  | left
  | top
  | right
  | bottom
  deriving DecidableEq

/-- The arguments in the order they are written. -/
def TupleArg.written : List TupleArg := [.left, .top, .right, .bottom]

/-- The arguments last to first, the order in which g++ evaluates the
arguments of a call. -/
def TupleArg.lastToFirst : List TupleArg := [.bottom, .right, .top, .left]

/-- Whether `order` evaluates the argument `a` before the argument `b`. -/
def TupleArg.before (order : List TupleArg) (a b : TupleArg) : Bool :=
  decide (order.indexOf a < order.indexOf b)

/-- The `get()` call that the argument `arg` makes on the rectangle. -/
def Rect.read (r : Rect) (ph : Phases) : TupleArg → ℚ × Rect × Phases
  | .left => r.getLeft ph
  | .top => r.getTop ph
  | .right => r.getRight ph
  | .bottom => r.getBottom ph

/-- The arguments of `order` evaluated one after the other, each `get()` on
the rectangle as the ones before it left it; `vals` holds the values of the
arguments evaluated so far. -/
def Rect.evalArgs :
    List TupleArg → (TupleArg → ℚ) → Rect → Phases → (TupleArg → ℚ) × Rect × Phases
  | [], vals, r, ph => (vals, r, ph)
  | arg :: rest, vals, r, ph =>
      Rect.evalArgs rest (Function.update vals arg (r.read ph arg).1) (r.read ph arg).2.1
        (r.read ph arg).2.2

/-- `Rect::asTuple()`: `std::tuple(left.get(), top.get(), right.get(), bottom.get())`.
C++ leaves the order in which the four arguments are evaluated unspecified:
`order` is that order, a permutation of the four arguments. -/
def Rect.asTuple (order : List TupleArg) (r : Rect) (ph : Phases) :
    (ℚ × ℚ × ℚ × ℚ) × Rect × Phases :=
  (((Rect.evalArgs order (fun _ => 0) r ph).1 .left,
    (Rect.evalArgs order (fun _ => 0) r ph).1 .top,
    (Rect.evalArgs order (fun _ => 0) r ph).1 .right,
    (Rect.evalArgs order (fun _ => 0) r ph).1 .bottom),
   (Rect.evalArgs order (fun _ => 0) r ph).2.1,
   (Rect.evalArgs order (fun _ => 0) r ph).2.2)

/-- One line `drawRect '<id>' {<x1>:<x2>|<y1>:<y2>};` written by `compose()`,
with `auto [x1, y1, x2, y2] = surface->rect.asTuple()`. -/
structure DrawCommand where
  id : String
  x1 : ℚ
  y1 : ℚ
  x2 : ℚ
  y2 : ℚ

/-- The surfaces that `shared_ptr`s own, by address; `none` where the surface
has been destroyed, so that a `weak_ptr` to it is expired. -/
abbrev SurfaceHeap := Nat → Option Surface

/-- `Compositor::compose()` over the list `surfaces` of `weak_ptr`s: the
outcome, the lines written, the surfaces and the phases afterwards.  An
expired pointer stops the traversal at `assert(!wptr.expired())`.  `order` is
the order in which the call site of `asTuple()` evaluates its arguments. -/
def Compositor.compose (order : List TupleArg) :
    List Nat → SurfaceHeap → Phases → Except String Unit × List DrawCommand × SurfaceHeap × Phases
  | [], heap, ph => (Except.ok (), [], heap, ph)
  | wptr :: rest, heap, ph =>
      match heap wptr with
      | none => (Except.error "assert(!wptr.expired())", [], heap, ph)
      | some surface =>
          ((Compositor.compose order rest
              (Function.update heap wptr
                (some { surface with rect := (surface.rect.asTuple order ph).2.1 }))
              (surface.rect.asTuple order ph).2.2).1,
           { id := surface.id
             x1 := (surface.rect.asTuple order ph).1.1
             y1 := (surface.rect.asTuple order ph).1.2.1
             x2 := (surface.rect.asTuple order ph).1.2.2.1
             y2 := (surface.rect.asTuple order ph).1.2.2.2 } ::
             (Compositor.compose order rest
                (Function.update heap wptr
                  (some { surface with rect := (surface.rect.asTuple order ph).2.1 }))
                (surface.rect.asTuple order ph).2.2).2.1,
           (Compositor.compose order rest
              (Function.update heap wptr
                (some { surface with rect := (surface.rect.asTuple order ph).2.1 }))
              (surface.rect.asTuple order ph).2.2).2.2)

/-- The rectangle whose `Property` members carry the chains `lc`, `tc`, `wc`,
`hc`, whose `right` and `bottom` carry the closure that `Rect()` installed,
and whose members store the given values. -/
def Rect.canon (lc tc wc hc : List (ConstraintID × Constraint Phases ℚ))
    (vl vt vw vh vr vb : ℚ) : Rect :=
  { left := ⟨lc, vl⟩, top := ⟨tc, vt⟩, width := ⟨wc, vw⟩, height := ⟨hc, vh⟩
    right := ⟨[(1, Rect.sumLambda)], vr⟩, bottom := ⟨[(1, Rect.sumLambda)], vb⟩ }

/-- The line for the surface at address `a` computed from the stored values
of its rectangle: `left`, `top`, `left + width`, `top + height`. -/
def SurfaceHeap.storedCommand (heap : SurfaceHeap) (a : Nat) : DrawCommand :=
  match heap a with
  | some s =>
      { id := s.id
        x1 := s.rect.left.value
        y1 := s.rect.top.value
        x2 := s.rect.left.value + s.rect.width.value
        y2 := s.rect.top.value + s.rect.height.value }
  | none => { id := "", x1 := 0, y1 := 0, x2 := 0, y2 := 0 }

/-- What `compose()` does not change in a surface with a wired rectangle:
the identity, the four `Property` members and the wiring. -/
def Surface.inputs (s : Surface) :
    String × Property Phases ℚ × Property Phases ℚ × Property Phases ℚ × Property Phases ℚ ×
      List (ConstraintID × Constraint RectCapture ℚ) ×
      List (ConstraintID × Constraint RectCapture ℚ) :=
  (s.id, s.rect.left, s.rect.top, s.rect.width, s.rect.height, s.rect.right.constraints,
    s.rect.bottom.constraints)

/-! ## A `Rect` over its lifetime -/

/-- The four `Property` members of a `Rect`. -/
inductive Side where
  | left
  | top
  | width
  | height

/-- The member of `r` that `side` names. -/
def Rect.side (r : Rect) : Side → Property Phases ℚ
  | .left => r.left
  | .top => r.top
  | .width => r.width
  | .height => r.height

/-- The rectangle `r` with `p` as the member that `side` names. -/
def Rect.setSide (r : Rect) (p : Property Phases ℚ) : Side → Rect
  | .left => { r with left := p }
  | .top => { r with top := p }
  | .width => { r with width := p }
  | .height => { r with height := p }

/-- A `Rect`, the `Transition` objects alive on its `Property` members (each
with the member it is bound to), oldest first, and the storage of their
phases. -/
structure RectWorld where
  rect : Rect
  phases : Phases
  live : List (Side × Transition)

/-- What client code does with a `Rect`: `set`, `get`, `addConstraint`,
`removeConstraint` on a `Property` member, `get` on `right` and `bottom`, and
construction, `setPhase` and destruction of a `Transition` on a `Property`
member. -/
inductive RectOp where
  | set (side : Side) (v : ℚ)
  | get (side : Side)
  | getRight
  | getBottom
  | addConstraint (side : Side) (c : Constraint Phases ℚ)
  | removeConstraint (side : Side) (cid : ConstraintID)
  | construct (side : Side) (target : ℚ)
  | setPhase (k : Nat) (p : ℚ)
  | destroy (k : Nat)

/-- One operation on a `RectWorld`; `setPhase k` and `destroy k` act on the
`k`-th live `Transition` and are void when there is none. -/
def RectWorld.step (s : RectWorld) : RectOp → RectWorld
  | .set side v => { s with rect := s.rect.setSide (Property.set (s.rect.side side) v).2 side }
  | .get side =>
      { s with
        rect := s.rect.setSide ((s.rect.side side).get s.phases).2.1 side
        phases := ((s.rect.side side).get s.phases).2.2 }
  | .getRight =>
      { s with rect := (s.rect.getRight s.phases).2.1, phases := (s.rect.getRight s.phases).2.2 }
  | .getBottom =>
      { s with rect := (s.rect.getBottom s.phases).2.1, phases := (s.rect.getBottom s.phases).2.2 }
  | .addConstraint side c =>
      { s with rect := s.rect.setSide ((s.rect.side side).addConstraint c).2 side }
  | .removeConstraint side cid =>
      { s with rect := s.rect.setSide ((s.rect.side side).removeConstraint cid) side }
  | .construct side target =>
      { rect :=
          s.rect.setSide
            (Transition.ctor (freshObject (s.live.map Prod.snd)) (s.rect.side side) s.phases
              target).2.1 side
        phases :=
          (Transition.ctor (freshObject (s.live.map Prod.snd)) (s.rect.side side) s.phases
            target).2.2
        live := s.live ++
          [(side, (Transition.ctor (freshObject (s.live.map Prod.snd)) (s.rect.side side)
            s.phases target).1)] }
  | .setPhase k p =>
      match s.live[k]? with
      | none => s
      | some st => { s with phases := st.2.setPhase s.phases p }
  | .destroy k =>
      match s.live[k]? with
      | none => s
      | some st =>
          { s with
            rect := s.rect.setSide (st.2.dtor (s.rect.side st.1)) st.1
            live := s.live.eraseIdx k }

/-- A sequence of operations on a freshly constructed `Rect`, first one
first. -/
def RectWorld.run (phases : Phases) (ops : List RectOp) : RectWorld :=
  ops.foldl RectWorld.step { rect := Rect.new, phases := phases, live := [] }

/-- The sum `a.get() + b.get()` as a closure of `Rect::setConstraints`
computes it, `a` read first. -/
def Rect.sumInside (a b : Property Phases ℚ) (ph : Phases) : ℚ :=
  (a.get ph).1 + (b.get (a.get ph).2.2).1

/-- The sum `a.get() + b.get()` read once more after `a` and `b` have each
been read once. -/
def Rect.sumAgain (a b : Property Phases ℚ) (ph : Phases) : ℚ :=
  ((a.get ph).2.1.get (b.get (a.get ph).2.2).2.2).1 +
    ((b.get (a.get ph).2.2).2.1.get
      ((a.get ph).2.1.get (b.get (a.get ph).2.2).2.2).2.2).1

/-- The closures that `Rect()` installed on `right` and `bottom` are the
chains of `right` and `bottom`. -/
def Rect.DerivedWired (r : Rect) : Prop :=
  r.right.constraints = [(1, Rect.sumLambda)] ∧ r.bottom.constraints = [(1, Rect.sumLambda)]

/-! ## External cancellation of a timer -/

/-- What the owning thread does during a wait of the timer when it calls
`cancel()` once `k` handler calls have been made (`k` lines written): the
signal is raised during the wait that follows the `k`-th call. -/
def TimedTransition.cancelAfter (k : Nat) (w : TimerWorld) : TimerWorld :=
  if w.out.length = k then TimedTransition.cancel w else w

/-- The timer task of a `TimedTransition` with `_steps` steps after `n` rounds,
the other threads doing `during` in each wait. -/
def TimedTransition.taskWith (during : TimerWorld → TimerWorld) (t : Transition) (_steps : Int)
    (w : TimerWorld) (n : Nat) : TimerTask TimerWorld :=
  (timerStep TimedTransition.ready (TimedTransition.handler t _steps) during)^[n] (.running 0 w)

/-- Whether the operation is an `addConstraint` made by client code. -/
def RectOp.isAdd : RectOp → Bool
  | .addConstraint _ _ => true
  | _ => false

/-- The chains of the four `Property` members hold nothing but the closures
of live `Transition` objects, each on the member its `Transition` is bound
to, and no two nodes of a chain have the same identity. -/
def RectWorld.OnlyTransitions (s : RectWorld) : Prop :=
  ∀ side : Side,
    ((s.rect.side side).constraints.map Prod.fst).Nodup ∧
    ∀ n ∈ (s.rect.side side).constraints, ∃ t : Transition, (side, t) ∈ s.live ∧ n = t.node

/-! # Theorems -/

/-! ## The constraint chain -/

theorem accumulate_append {E T : Type} (l₁ l₂ : List (ConstraintID × Constraint E T))
    (v : T) (env : E) :
    accumulate (l₁ ++ l₂) v env = accumulate l₂ (accumulate l₁ v env).1 (accumulate l₁ v env).2 := by
  induction l₁ generalizing v env with
  | nil => rfl
  | cons n rest ih => exact ih (n.2 v env).1 (n.2 v env).2

theorem accumulate_pureNodes {E T : Type} (nodes : List (ConstraintID × (T → T)))
    (v : T) (env : E) :
    accumulate (pureNodes nodes) v env = (foldPure nodes v, env) := by
  induction nodes generalizing v with
  | nil => rfl
  | cons n rest ih =>
    simp only [pureNodes, List.map_cons, accumulate, Constraint.pure, foldPure, List.foldl_cons]
    exact ih (n.2 v)

theorem le_foldr_max {E T : Type} (cs : List (ConstraintID × Constraint E T))
    (n : ConstraintID × Constraint E T) (h : n ∈ cs) :
    n.1 ≤ cs.foldr (fun node m => max node.1 m) 0 := by
  induction cs with
  | nil => cases h
  | cons c rest ih =>
    rcases List.mem_cons.1 h with rfl | h
    · exact le_max_left _ _
    · exact le_trans (ih h) (le_max_right _ _)

theorem lt_freshNode {E T : Type} (cs : List (ConstraintID × Constraint E T))
    (n : ConstraintID × Constraint E T) (h : n ∈ cs) : n.1 < freshNode cs :=
  Nat.lt_succ_of_le (le_foldr_max cs n h)

theorem eraseP_push_back {E T : Type} (cs : List (ConstraintID × Constraint E T))
    (c : Constraint E T) :
    (push_back cs c).eraseP (fun node => node.1 == freshNode cs) = cs := by
  unfold push_back
  rw [List.eraseP_append_right]
  · simp [List.eraseP]
  · intro n hn
    have := lt_freshNode cs n hn
    simp only [beq_iff_eq]
    exact Nat.ne_of_lt this

theorem addAll_accumulate {E T : Type} (fs : List (Constraint E T)) (p : ValueProperty E T)
    (env : E) :
    accumulate (addAll p fs).constraints (addAll p fs).value env
      = fs.foldl (fun acc f => f acc.1 acc.2) (accumulate p.constraints p.value env) := by
  induction fs generalizing p with
  | nil => rfl
  | cons f rest ih =>
    simp only [addAll, List.foldl_cons] at ih ⊢
    rw [ih]
    simp [ValueProperty.addConstraint, push_back, accumulate_append, accumulate]

theorem foldl_pure {E T : Type} (fs : List (T → T)) (v : T) (env : E) :
    (fs.map Constraint.pure).foldl (fun (acc : T × E) f => f acc.1 acc.2) (v, env)
      = (fs.foldl (fun v f => f v) v, env) := by
  induction fs generalizing v with
  | nil => rfl
  | cons f rest ih =>
    simp only [List.map_cons, List.foldl_cons, Constraint.pure]
    exact ih (f v)

/-- C1: on a property with base `b` and an empty chain, after `addConstraint`
of `f_1 .. f_n` in this order the first `get()` returns the left fold of the
chain from `b` (each closure receiving the value and the captured state the
previous one left); for closures that capture nothing this is
`f_n(..f_2(f_1(b))..)`; and after `addConstraint(c)` on any property, `get()`
returns `c` applied to what `get()` returned without it. -/
theorem C1_get_folds_in_insertion_order {E T : Type} (b : T) (env : E) :
    (∀ cs : List (Constraint E T),
      ((addAll ({ constraints := [], value := b } : ValueProperty E T) cs).get env).1
        = (cs.foldl (fun acc c => c acc.1 acc.2) (b, env)).1) ∧
    (∀ fs : List (T → T),
      ((addAll ({ constraints := [], value := b } : ValueProperty E T)
          (fs.map Constraint.pure)).get env).1 = fs.foldl (fun v f => f v) b) ∧
    ∀ (p : ValueProperty E T) (c : Constraint E T),
      ((p.addConstraint c).2.get env).1 = (c (p.get env).1 (p.get env).2.2).1 := by
  refine ⟨?_, ?_, ?_⟩
  · intro cs
    simp only [ValueProperty.get, ValueProperty.applyConstraints]
    rw [addAll_accumulate]
    rfl
  · intro fs
    simp only [ValueProperty.get, ValueProperty.applyConstraints]
    rw [addAll_accumulate]
    simp only [accumulate]
    rw [foldl_pure]
  · intro p c
    simp [ValueProperty.get, ValueProperty.applyConstraints, ValueProperty.addConstraint,
      push_back, accumulate_append, accumulate]

/-- C2, as stated, fails: with base `0` and the single constraint `x ↦ x + 1`,
`get()` returns `1` and leaves `1` (not `0`) as the stored base, and the
second `get()` returns `2`. -/
theorem C2_counterexample :
    ¬ (((⟨[(1, Constraint.pure (· + 1))], 0⟩ : ValueProperty Unit Int).get ()).2.1.value
        = (⟨[(1, Constraint.pure (· + 1))], 0⟩ : ValueProperty Unit Int).value) ∧
    ¬ ((((⟨[(1, Constraint.pure (· + 1))], 0⟩ : ValueProperty Unit Int).get ()).2.1.get ()).1
        = ((⟨[(1, Constraint.pure (· + 1))], 0⟩ : ValueProperty Unit Int).get ()).1) := by
  decide

/-- C2, amended: for any base `b` and any chain of closures that capture
nothing, with fold `F`, `get()` leaves the chain and the captured state
unchanged, returns `F b` and stores `F b` as the base; a second `get()` returns
`F (F b)`, so two consecutive `get()` agree exactly when `F (F b) = F b`. -/
theorem C2_get_keeps_chain_stores_result {E T : Type}
    (nodes : List (ConstraintID × (T → T))) (b : T) (env : E) :
    ((⟨pureNodes nodes, b⟩ : ValueProperty E T).get env).2.1.constraints = pureNodes nodes ∧
    ((⟨pureNodes nodes, b⟩ : ValueProperty E T).get env).2.2 = env ∧
    ((⟨pureNodes nodes, b⟩ : ValueProperty E T).get env).1 = foldPure nodes b ∧
    ((⟨pureNodes nodes, b⟩ : ValueProperty E T).get env).2.1.value = foldPure nodes b ∧
    (((⟨pureNodes nodes, b⟩ : ValueProperty E T).get env).2.1.get env).1
      = foldPure nodes (foldPure nodes b) ∧
    ((((⟨pureNodes nodes, b⟩ : ValueProperty E T).get env).2.1.get env).1
        = ((⟨pureNodes nodes, b⟩ : ValueProperty E T).get env).1
      ↔ foldPure nodes (foldPure nodes b) = foldPure nodes b) := by
  simp [ValueProperty.get, ValueProperty.applyConstraints, accumulate_pureNodes]

theorem setAll_eq {E T : Type} (vs : List T) (p : Property E T) :
    setAll p vs = { constraints := p.constraints, value := vs.getLast?.getD p.value } := by
  induction vs generalizing p with
  | nil => rfl
  | cons v rest ih =>
    simp only [setAll, List.foldl_cons] at ih ⊢
    rw [ih]
    cases rest with
    | nil => rfl
    | cons w rest =>
      simp [Property.set, List.getLast?_cons_cons,
        List.getLast?_eq_getLast (w :: rest) (List.cons_ne_nil w rest)]

/-- C3: `Property::set(v)` returns `v`, stores `v` as the base and leaves the
chain as it was; the next `get()` returns the fold of that chain over `v`;
with an empty chain `get()` returns the value of the last `set()`, or the
construction value when there was none. -/
theorem C3_set_replaces_base_only {E T : Type} [Zero T] (p : Property E T) (v : T) (env : E) :
    (Property.set p v).1 = v ∧
    (Property.set p v).2.value = v ∧
    (Property.set p v).2.constraints = p.constraints ∧
    ((Property.set p v).2.get env).1 = (accumulate p.constraints v env).1 ∧
    (∀ (b : T) (vs : List T),
      ((setAll (Property.new b : Property E T) vs).get env).1 = vs.getLast?.getD b) := by
  refine ⟨rfl, rfl, rfl, rfl, ?_⟩
  intro b vs
  rw [setAll_eq]
  rfl

/-- C4, as stated, fails: with base `0` and the prior chain `x ↦ x + 1`,
`get()` returns `g = 1`; after `addConstraint` of `x ↦ x * 5` and
`removeConstraint` of its handle, `get()` returns `2`. -/
theorem C4_counterexample :
    (((⟨[(1, Constraint.pure (· + 1))], 0⟩ : ValueProperty Unit Int).get ()).1 = 1) ∧
    ((((((⟨[(1, Constraint.pure (· + 1))], 0⟩ : ValueProperty Unit Int).get ()).2.1.addConstraint
          (Constraint.pure (· * 5))).2.removeConstraint
        ((((⟨[(1, Constraint.pure (· + 1))], 0⟩ : ValueProperty Unit Int).get ()).2.1.addConstraint
          (Constraint.pure (· * 5))).1)).get ()).1 = 2) := by
  decide

/-- C4, amended: `addConstraint(f)` followed by `removeConstraint` of the
returned handle gives back the very same property (base and chain), so the
next `get()` behaves as it would have without the two calls; when a `get()`
was made before, on a chain of capture-free closures with fold `F` and base
`b`, it returned `F b` and the `get()` after the two calls returns
`F (F b)`. -/
theorem C4_add_remove_restores_state {E T : Type} (p : ValueProperty E T) (f : Constraint E T)
    (env : E) :
    (p.addConstraint f).2.removeConstraint (p.addConstraint f).1 = p ∧
    ((p.addConstraint f).2.removeConstraint (p.addConstraint f).1).get env = p.get env ∧
    ∀ (nodes : List (ConstraintID × (T → T))) (b : T),
      (((⟨pureNodes nodes, b⟩ : ValueProperty E T).get env).1 = foldPure nodes b) ∧
      ((((((⟨pureNodes nodes, b⟩ : ValueProperty E T).get env).2.1.addConstraint f).2.removeConstraint
          ((((⟨pureNodes nodes, b⟩ : ValueProperty E T).get env).2.1.addConstraint f).1)).get
            env).1 = foldPure nodes (foldPure nodes b)) := by
  have h : ∀ q : ValueProperty E T,
      (q.addConstraint f).2.removeConstraint (q.addConstraint f).1 = q := by
    intro q
    simp only [ValueProperty.addConstraint, ValueProperty.removeConstraint]
    rw [eraseP_push_back]
  refine ⟨h p, by rw [h p], ?_⟩
  intro nodes b
  rw [h]
  simp [ValueProperty.get, ValueProperty.applyConstraints, accumulate_pureNodes]

/-- C5: on every `DependentProperty`, `set(v)` throws
`std::runtime_error("invalid operation")` for every `v`, never returns a
value, and the stored base and the chain are what they were. -/
theorem C5_dependent_set_throws {E T : Type} (d : DependentProperty E T) (v : T) :
    (DependentProperty.set d v).1 = Except.error "invalid operation" ∧
    (∀ x : T, (DependentProperty.set d v).1 ≠ Except.ok x) ∧
    (DependentProperty.set d v).2.value = d.value ∧
    (DependentProperty.set d v).2.constraints = d.constraints := by
  refine ⟨rfl, ?_, rfl, rfl⟩
  intro x h
  simp [DependentProperty.set, ValueProperty.set] at h

/-! ## Rect -/

theorem Rect.wired_new : Rect.new.Wired := by
  simp [Rect.Wired, Rect.new, Rect.setConstraints, push_back, freshNode, Property.default,
    DependentProperty.default]

theorem Rect.wired_call (ph : Phases) (r : Rect) (c : RectCall) (h : r.Wired) :
    (Rect.call ph r c).Wired := by
  obtain ⟨hl, ht, hw, hh, hr, hb⟩ := h
  cases c <;>
    simp [Rect.Wired, Rect.call, Property.set, Rect.getLeft, Rect.getTop, Rect.getWidth,
      Rect.getHeight, Rect.getRight, Rect.getBottom, ValueProperty.get,
      ValueProperty.applyConstraints, Rect.sumLambda, accumulate, hl, ht, hw, hh, hr, hb]

theorem Rect.wired_calls (ph : Phases) (cs : List RectCall) (r : Rect) (h : r.Wired) :
    (Rect.calls ph r cs).Wired := by
  induction cs generalizing r with
  | nil => exact h
  | cons c rest ih => exact ih (Rect.call ph r c) (Rect.wired_call ph r c h)

theorem Rect.wired_sums (ph : Phases) (r : Rect) (h : r.Wired) :
    r.rightIsSum ph ∧ r.bottomIsSum ph := by
  obtain ⟨hl, ht, hw, hh, hr, hb⟩ := h
  constructor <;>
    simp [Rect.rightIsSum, Rect.bottomIsSum, Rect.getLeft, Rect.getTop, Rect.getWidth,
      Rect.getHeight, Rect.getRight, Rect.getBottom, ValueProperty.get,
      ValueProperty.applyConstraints, Rect.sumLambda, accumulate, hl, ht, hw, hh, hr, hb]

/-- C6: from a freshly constructed `Rect`, after every finite sequence of
`set()` calls on left, top, width, height (reads of the six members allowed in
between), `right.get() == left.get() + width.get()` and
`bottom.get() == top.get() + height.get()` hold at once, whatever values `x`,
`y` are stored in `right` and `bottom`. -/
theorem C6_rect_sums_after_sets (ph : Phases) (cs : List RectCall) (x y : ℚ) :
    (Rect.calls ph Rect.new cs).rightIsSum ph ∧
    (Rect.calls ph Rect.new cs).bottomIsSum ph ∧
    ((Rect.calls ph Rect.new cs).withStored x y).rightIsSum ph ∧
    ((Rect.calls ph Rect.new cs).withStored x y).bottomIsSum ph := by
  have h := Rect.wired_calls ph cs Rect.new Rect.wired_new
  have h' : ((Rect.calls ph Rect.new cs).withStored x y).Wired :=
    ⟨h.1, h.2.1, h.2.2.1, h.2.2.2.1, h.2.2.2.2.1, h.2.2.2.2.2⟩
  exact ⟨(Rect.wired_sums ph _ h).1, (Rect.wired_sums ph _ h).2,
    (Rect.wired_sums ph _ h').1, (Rect.wired_sums ph _ h').2⟩

/-- The rectangle of `main()`: left 10, top 20, width 320, height 240 reads
right 330 and bottom 260. -/
theorem Rect.main_values (ph : Phases) :
    ((Rect.calls ph Rect.new [.setLeft 10, .setTop 20, .setWidth 320, .setHeight 240]).getRight
        ph).1 = 330 ∧
    ((Rect.calls ph Rect.new [.setLeft 10, .setTop 20, .setWidth 320, .setHeight 240]).getBottom
        ph).1 = 260 := by
  constructor <;>
    norm_num [Rect.calls, Rect.call, Rect.new, Rect.setConstraints, push_back, freshNode,
      Property.default, DependentProperty.default, Property.set, Rect.getRight, Rect.getBottom,
      ValueProperty.get, ValueProperty.applyConstraints, Rect.sumLambda, accumulate]

/-! ## Transition -/

theorem Transition.get_after_ctor (b t : ℚ) (self : Nat) (phases ph : Phases) :
    (Transition.ctor self ⟨[], b⟩ phases t).2.1.get ph
      = (b * (1 - ph self) + t * ph self,
         ⟨[(1, Transition.lambda self t)], b * (1 - ph self) + t * ph self⟩, ph) := by
  simp [Transition.ctor, ValueProperty.addConstraint, push_back, freshNode, ValueProperty.get,
    ValueProperty.applyConstraints, accumulate, Transition.lambda]

/-- C7: on a `Property` with base `b` and no other constraint, after
constructing a `Transition` towards `t` and `setPhase(p)`, `get()` returns
`b*(1-p) + t*p`; right after construction (phase 0) it returns `b`; at phase 1
it returns `t`; base 0, target 10, phase 1/2 give 5. -/
theorem C7_transition_interpolates (b t p : ℚ) (self : Nat) (phases : Phases) :
    ((Transition.ctor self ⟨[], b⟩ phases t).2.1.get
        ((Transition.ctor self ⟨[], b⟩ phases t).1.setPhase
          (Transition.ctor self ⟨[], b⟩ phases t).2.2 p)).1 = b * (1 - p) + t * p ∧
    ((Transition.ctor self ⟨[], b⟩ phases t).2.1.get
        (Transition.ctor self ⟨[], b⟩ phases t).2.2).1 = b ∧
    ((Transition.ctor self ⟨[], b⟩ phases t).2.1.get
        ((Transition.ctor self ⟨[], b⟩ phases t).1.setPhase
          (Transition.ctor self ⟨[], b⟩ phases t).2.2 1)).1 = t ∧
    ((Transition.ctor self ⟨[], 0⟩ phases 10).2.1.get
        ((Transition.ctor self ⟨[], 0⟩ phases 10).1.setPhase
          (Transition.ctor self ⟨[], 0⟩ phases 10).2.2 (1 / 2))).1 = 5 := by
  simp only [Transition.get_after_ctor]
  refine ⟨?_, ?_, ?_, ?_⟩ <;>
    norm_num [Transition.ctor, Transition.setPhase, Function.update]

/-- C8, as stated, fails: base 0, target 10, phase set to 7/10, one `get()`
while the `Transition` is installed, then destruction: the stored base is 7
and the next `get()` returns 7, not 0. -/
theorem C8_counterexample :
    (Scope.run ⟨⟨[], 0⟩, fun _ => 0, []⟩
        [.construct 10, .setPhase 0 (7 / 10), .get, .destroy 0]).property.value = 7 ∧
    (Scope.run ⟨⟨[], 0⟩, fun _ => 0, []⟩
        [.construct 10, .setPhase 0 (7 / 10), .get, .destroy 0]).property.value ≠ 0 ∧
    ((Scope.run ⟨⟨[], 0⟩, fun _ => 0, []⟩
        [.construct 10, .setPhase 0 (7 / 10), .get, .destroy 0]).property.get (fun _ => 0)).1
      = 7 := by
  refine ⟨?_, ?_, ?_⟩ <;>
    norm_num [Scope.run, Scope.step, Transition.ctor, Transition.dtor, Transition.setPhase,
      freshObject, ValueProperty.addConstraint, ValueProperty.removeConstraint, push_back,
      freshNode, ValueProperty.get, ValueProperty.applyConstraints, accumulate,
      Transition.lambda, Function.update, List.eraseP]

/-- C8, amended: when no `get()` is made on the property while the
`Transition` is installed, constructing it, setting its phase to 7/10 and
destroying it leaves the property as it was (stored base `b`, same chain), and
`get()` returns what it returned before the transition; a `get()` made at
phase 7/10 stores `b*(1-7/10) + t*(7/10)` as the base, and that value stays
after destruction. -/
theorem C8_teardown_without_reads (p : Property Phases ℚ) (b t : ℚ) (self : Nat)
    (phases ph : Phases) :
    (Transition.ctor self p phases t).1.dtor (Transition.ctor self p phases t).2.1 = p ∧
    ((Transition.ctor self p phases t).1.dtor (Transition.ctor self p phases t).2.1).get ph
      = p.get ph ∧
    ((Transition.ctor self ⟨[], b⟩ phases t).1.dtor
        (Transition.ctor self ⟨[], b⟩ phases t).2.1).value = b ∧
    ((Transition.ctor self ⟨[], b⟩ phases t).1.dtor
        ((Transition.ctor self ⟨[], b⟩ phases t).2.1.get
          ((Transition.ctor self ⟨[], b⟩ phases t).1.setPhase
            (Transition.ctor self ⟨[], b⟩ phases t).2.2 (7 / 10))).2.1).value
      = b * (1 - 7 / 10) + t * (7 / 10) := by
  have h : ∀ q : Property Phases ℚ,
      (Transition.ctor self q phases t).1.dtor (Transition.ctor self q phases t).2.1 = q := by
    intro q
    simp only [Transition.ctor, Transition.dtor, ValueProperty.addConstraint,
      ValueProperty.removeConstraint]
    rw [eraseP_push_back]
  refine ⟨h p, by rw [h p], by rw [h], ?_⟩
  rw [Transition.get_after_ctor]
  simp [Transition.dtor, ValueProperty.removeConstraint, Transition.ctor, Transition.setPhase]

/-! ## Transitions coming and going on one property -/

theorem eraseP_map_node (l : List Transition) (k : Nat) (t : Transition)
    (hk : l[k]? = some t) (hnd : (l.map Transition.transition_constraint_id).Nodup) :
    (l.map Transition.node).eraseP (fun n => n.1 == t.transition_constraint_id)
      = (l.eraseIdx k).map Transition.node := by
  induction l generalizing k with
  | nil => simp at hk
  | cons a rest ih =>
    rw [List.map_cons, List.nodup_cons] at hnd
    cases k with
    | zero =>
      simp only [List.getElem?_cons_zero, Option.some.injEq] at hk
      subst hk
      simp [Transition.node]
    | succ k =>
      simp only [List.getElem?_cons_succ] at hk
      have hmem : t.transition_constraint_id ∈ rest.map Transition.transition_constraint_id :=
        List.mem_map_of_mem _ (List.getElem?_mem hk)
      have hne : a.transition_constraint_id ≠ t.transition_constraint_id := by
        intro h
        exact hnd.1 (h ▸ hmem)
      rw [List.map_cons, List.eraseP_cons_of_neg (by simpa [Transition.node] using hne),
        ih k hk hnd.2]
      rfl

theorem Scope.balanced_step (prior : List (ConstraintID × Constraint Phases ℚ)) (s : Scope)
    (op : ScopeOp) (h : Scope.Balanced prior s) : Scope.Balanced prior (s.step op) := by
  obtain ⟨hc, hnd, hp⟩ := h
  cases op with
  | construct target =>
    have hfresh : ∀ t ∈ s.live, t.transition_constraint_id < freshNode s.property.constraints := by
      intro t ht
      have : t.node ∈ s.property.constraints := by
        rw [hc]
        exact List.mem_append_right _ (List.mem_map_of_mem _ ht)
      exact lt_freshNode _ _ this
    refine ⟨?_, ?_, ?_⟩
    · simp [Scope.step, Transition.ctor, ValueProperty.addConstraint, push_back, hc,
        Transition.node]
    · simp only [Scope.step, Transition.ctor, ValueProperty.addConstraint, List.map_append,
        List.map_cons, List.map_nil]
      rw [List.nodup_append]
      refine ⟨hnd, List.nodup_singleton _, ?_⟩
      intro x hx hx'
      obtain ⟨t, ht, rfl⟩ := List.mem_map.1 hx
      rw [List.mem_singleton] at hx'
      exact absurd hx' (Nat.ne_of_lt (hfresh t ht))
    · intro t ht n hn
      simp only [Scope.step, Transition.ctor, ValueProperty.addConstraint, List.mem_append,
        List.mem_singleton] at ht
      rcases ht with ht | rfl
      · exact hp t ht n hn
      · have : n ∈ s.property.constraints := by
          rw [hc]
          exact List.mem_append_left _ hn
        exact Nat.ne_of_lt (lt_freshNode _ _ this)
  | destroy k =>
    simp only [Scope.step]
    cases hk : s.live[k]? with
    | none => exact ⟨hc, hnd, hp⟩
    | some t =>
      refine ⟨?_, ?_, ?_⟩
      · simp only [Transition.dtor, ValueProperty.removeConstraint, hc]
        rw [List.eraseP_append_right, eraseP_map_node s.live k t hk hnd]
        intro n hn
        simpa using hp t (List.getElem?_mem hk) n hn
      · exact hnd.sublist ((List.eraseIdx_sublist s.live k).map _)
      · intro u hu n hn
        exact hp u (List.mem_of_mem_eraseIdx hu) n hn
  | setPhase k p =>
    simp only [Scope.step]
    cases s.live[k]? with
    | none => exact ⟨hc, hnd, hp⟩
    | some t => exact ⟨hc, hnd, hp⟩
  | get => exact ⟨hc, hnd, hp⟩
  | set v => exact ⟨hc, hnd, hp⟩

theorem Scope.balanced_run (prior : List (ConstraintID × Constraint Phases ℚ))
    (ops : List ScopeOp) (s : Scope) (h : Scope.Balanced prior s) :
    Scope.Balanced prior (s.run ops) := by
  induction ops generalizing s with
  | nil => exact h
  | cons op rest ih => exact ih (s.step op) (Scope.balanced_step prior s op h)

theorem Scope.balanced_init (p : Property Phases ℚ) (ph : Phases) :
    Scope.Balanced p.constraints ⟨p, ph, []⟩ := by
  simp [Scope.Balanced]

/-- C9: on a property with any prior chain, after any sequence of `Transition`
constructions and destructions, in any order (with `setPhase`, `get()` and
`set()` in between), the chain is the prior chain followed by the nodes of the
live transitions in construction order; a construction appends exactly the new
transition's node; the destruction of the `k`-th live transition removes
exactly its node, the nodes before and after it staying as they are. -/
theorem C9_chain_is_prior_then_live (p : Property Phases ℚ) (ph : Phases) (ops : List ScopeOp) :
    (Scope.run ⟨p, ph, []⟩ ops).property.constraints
      = p.constraints ++ (Scope.run ⟨p, ph, []⟩ ops).live.map Transition.node ∧
    (∀ target : ℚ, ∃ t : Transition,
      ((Scope.run ⟨p, ph, []⟩ ops).step (.construct target)).live
        = (Scope.run ⟨p, ph, []⟩ ops).live ++ [t] ∧
      ((Scope.run ⟨p, ph, []⟩ ops).step (.construct target)).property.constraints
        = (Scope.run ⟨p, ph, []⟩ ops).property.constraints ++ [t.node]) ∧
    (∀ (k : Nat) (t : Transition), (Scope.run ⟨p, ph, []⟩ ops).live[k]? = some t →
      ((Scope.run ⟨p, ph, []⟩ ops).step (.destroy k)).live
        = (Scope.run ⟨p, ph, []⟩ ops).live.eraseIdx k ∧
      ∃ before after : List (ConstraintID × Constraint Phases ℚ),
        (Scope.run ⟨p, ph, []⟩ ops).property.constraints = before ++ t.node :: after ∧
        ((Scope.run ⟨p, ph, []⟩ ops).step (.destroy k)).property.constraints
          = before ++ after) := by
  have h := Scope.balanced_run p.constraints ops ⟨p, ph, []⟩ (Scope.balanced_init p ph)
  refine ⟨h.1, ?_, ?_⟩
  · intro target
    exact ⟨_, rfl, rfl⟩
  · intro k t hk
    have h' := Scope.balanced_step p.constraints _ (.destroy k) h
    have hstep : ((Scope.run ⟨p, ph, []⟩ ops).step (.destroy k)).live
        = (Scope.run ⟨p, ph, []⟩ ops).live.eraseIdx k := by
      simp [Scope.step, hk]
    refine ⟨hstep, ?_⟩
    have hlt : k < (Scope.run ⟨p, ph, []⟩ ops).live.length := by
      rcases Nat.lt_or_ge k (Scope.run ⟨p, ph, []⟩ ops).live.length with hlt | hge
      · exact hlt
      · rw [List.getElem?_eq_none hge] at hk
        cases hk
    have hget : (Scope.run ⟨p, ph, []⟩ ops).live[k] = t := by
      rw [List.getElem?_eq_getElem hlt] at hk
      exact Option.some.inj hk
    refine ⟨p.constraints ++ ((Scope.run ⟨p, ph, []⟩ ops).live.take k).map Transition.node,
      ((Scope.run ⟨p, ph, []⟩ ops).live.drop (k + 1)).map Transition.node, ?_, ?_⟩
    · rw [h.1, List.append_assoc, ← List.map_cons, ← List.map_append, ← hget,
        ← List.drop_eq_getElem_cons hlt, List.take_append_drop]
    · rw [h'.1, hstep, List.append_assoc, ← List.map_append, List.eraseIdx_eq_take_drop_succ]

/-- C9 on two transitions constructed on an empty chain: the first one is the
live transition number 0, and its destruction leaves the second one alone. -/
theorem C9_chain_is_prior_then_live_witness :
    (Scope.run ⟨⟨[], 0⟩, fun _ => 0, []⟩ [.construct 1, .construct 2]).live[0]?
      = some ⟨1, 1, 1⟩ ∧
    ((Scope.run ⟨⟨[], 0⟩, fun _ => 0, []⟩ [.construct 1, .construct 2]).step (.destroy 0)).live
        = (Scope.run ⟨⟨[], 0⟩, fun _ => 0, []⟩ [.construct 1, .construct 2]).live.eraseIdx 0 ∧
      ∃ before after : List (ConstraintID × Constraint Phases ℚ),
        (Scope.run ⟨⟨[], 0⟩, fun _ => 0, []⟩ [.construct 1, .construct 2]).property.constraints
          = before ++ Transition.node ⟨1, 1, 1⟩ :: after ∧
        ((Scope.run ⟨⟨[], 0⟩, fun _ => 0, []⟩
            [.construct 1, .construct 2]).step (.destroy 0)).property.constraints
          = before ++ after :=
  ⟨rfl, (C9_chain_is_prior_then_live ⟨[], 0⟩ (fun _ => 0) [.construct 1, .construct 2]).2.2
    0 ⟨1, 1, 1⟩ rfl⟩

/-! ## The timer of a TimedTransition -/

theorem wrapInt32_eq_self (x : Int) (h₁ : -2147483648 ≤ x) (h₂ : x < 2147483648) :
    wrapInt32 x = x := by
  unfold wrapInt32
  omega

theorem TimedTransition.task_succ (t : Transition) (_steps : Int) (w : TimerWorld) (n : Nat) :
    TimedTransition.task t _steps w (n + 1)
      = timerStep TimedTransition.ready (TimedTransition.handler t _steps) id
          (TimedTransition.task t _steps w n) :=
  Function.iterate_succ_apply' _ _ _

theorem TimedTransition.task_finished (t : Transition) (_steps : Int) (w final : TimerWorld)
    (n : Nat) (h : TimedTransition.task t _steps w n = .finished final) (m : Nat) :
    TimedTransition.task t _steps w (n + m) = .finished final := by
  induction m with
  | zero => exact h
  | succ m ih => rw [← Nat.add_assoc, TimedTransition.task_succ, ih]; rfl

theorem TimedTransition.task_running (t : Transition) (n : Nat) (hn : (n : Int) ≤ 2147483647)
    (ph : Phases) (k : Nat) (hk : k ≤ n) :
    ∃ wk : TimerWorld,
      TimedTransition.task t n (TimedTransition.start ph) k = .running k wk ∧
      wk.brake = false ∧
      wk.out = (List.range k).map (TimedTransition.line n) := by
  induction k with
  | zero => exact ⟨TimedTransition.start ph, rfl, rfl, rfl⟩
  | succ k ih =>
    obtain ⟨wk, hrun, hb, ho⟩ := ih (Nat.le_of_succ_le hk)
    have hne : ¬ ((k : Int) = (n : Int)) := by omega
    refine ⟨TimedTransition.handler t n k wk, ?_, ?_, ?_⟩
    · rw [TimedTransition.task_succ, hrun]
      have hw : wrapInt32 ((k : Int) + 1) = ((k + 1 : Nat) : Int) := by
        rw [wrapInt32_eq_self] <;> omega
      simp [timerStep, TimedTransition.ready, hb, hw]
    · simp [TimedTransition.handler, hne, hb]
    · simp [TimedTransition.handler, ho, List.range_succ, TimedTransition.line,
        Transition.setPhase]

theorem TimedTransition.task_last (t : Transition) (n : Nat) (hn : (n : Int) ≤ 2147483647)
    (ph : Phases) :
    ∃ final : TimerWorld,
      TimedTransition.task t n (TimedTransition.start ph) (n + 1)
        = .running (wrapInt32 ((n : Int) + 1)) final ∧
      final.brake = true ∧
      final.out = (List.range (n + 1)).map (TimedTransition.line n) ∧
      TimedTransition.task t n (TimedTransition.start ph) (n + 2) = .finished final := by
  obtain ⟨wn, hrun, hb, ho⟩ := TimedTransition.task_running t n hn ph n (Nat.le_refl n)
  have hlast : TimedTransition.task t n (TimedTransition.start ph) (n + 1)
      = .running (wrapInt32 ((n : Int) + 1)) (TimedTransition.handler t n n wn) := by
    rw [TimedTransition.task_succ, hrun]
    simp [timerStep, TimedTransition.ready, hb]
  have hbrake : (TimedTransition.handler t n n wn).brake = true := by
    simp [TimedTransition.handler, TimedTransition.cancel, hb]
  refine ⟨TimedTransition.handler t n n wn, hlast, hbrake, ?_, ?_⟩
  · simp [TimedTransition.handler, ho, List.range_succ, TimedTransition.line,
      Transition.setPhase]
  · rw [TimedTransition.task_succ, hlast]
    simp [timerStep, TimedTransition.ready, hbrake]

/-- C10: for `1 ≤ steps` (an `int`), no other thread touching the promise, the
timer loop of a `TimedTransition` ends, having called the handler exactly
`steps + 1` times with the indices `0, 1, .., steps` in this order: with less
than `steps + 2` rounds it is still in the loop, from `steps + 2` rounds on it
has ended in one and the same state; the promise has no value before each of
the calls with index `k ≤ steps` and has its value after the call with index
`steps`. -/
theorem C10_timer_tick_count (t : Transition) (steps : Int) (ph : Phases)
    (h₁ : 1 ≤ steps) (h₂ : steps ≤ 2147483647) :
    ∃ final : TimerWorld,
      (∀ fuel : Nat, steps.toNat + 2 ≤ fuel →
        startTimer TimedTransition.ready (TimedTransition.handler t steps) id fuel
          (TimedTransition.start ph) = some final) ∧
      (∀ fuel : Nat, fuel < steps.toNat + 2 →
        startTimer TimedTransition.ready (TimedTransition.handler t steps) id fuel
          (TimedTransition.start ph) = none) ∧
      final.out.map Prod.fst = (List.range (steps.toNat + 1)).map Int.ofNat ∧
      final.out.length = steps.toNat + 1 ∧
      final.brake = true ∧
      (∀ k : Nat, k ≤ steps.toNat →
        (TimedTransition.task t steps (TimedTransition.start ph) k).world.brake = false ∧
        (TimedTransition.task t steps (TimedTransition.start ph) k).world.out.map Prod.fst
          = (List.range k).map Int.ofNat) ∧
      (TimedTransition.task t steps (TimedTransition.start ph) (steps.toNat + 1)).world
        = final := by
  obtain ⟨n, rfl⟩ : ∃ n : Nat, steps = (n : Int) :=
    ⟨steps.toNat, (Int.toNat_of_nonneg (by omega)).symm⟩
  simp only [Int.toNat_ofNat]
  have hfst : ∀ k : Nat, ((List.range k).map (TimedTransition.line n)).map Prod.fst
      = (List.range k).map Int.ofNat := by
    intro k
    simp [TimedTransition.line, Function.comp_def]
  obtain ⟨final, hlast, hbrake, hout, hfin⟩ := TimedTransition.task_last t n h₂ ph
  have hstill : ∀ k : Nat, k ≤ n + 1 → ∃ i wk,
      TimedTransition.task t n (TimedTransition.start ph) k = .running i wk := by
    intro k hk
    rcases Nat.lt_or_ge k (n + 1) with hlt | hge
    · obtain ⟨wk, hrun, _, _⟩ := TimedTransition.task_running t n h₂ ph k (Nat.le_of_lt_succ hlt)
      exact ⟨_, wk, hrun⟩
    · have : k = n + 1 := Nat.le_antisymm hk hge
      subst this
      exact ⟨_, final, hlast⟩
  refine ⟨final, ?_, ?_, ?_, ?_, hbrake, ?_, ?_⟩
  · intro fuel hfuel
    obtain ⟨m, rfl⟩ : ∃ m, fuel = n + 2 + m := ⟨fuel - (n + 2), by omega⟩
    have := TimedTransition.task_finished t n (TimedTransition.start ph) final (n + 2) hfin m
    unfold TimedTransition.task at this
    simp only [startTimer, this]
  · intro fuel hfuel
    obtain ⟨i, wk, hrun⟩ := hstill fuel (by omega)
    unfold TimedTransition.task at hrun
    simp only [startTimer, hrun]
  · rw [hout, hfst]
  · rw [hout]
    simp
  · intro k hk
    obtain ⟨wk, hrun, hb, ho⟩ := TimedTransition.task_running t n h₂ ph k hk
    rw [hrun]
    exact ⟨hb, by simp only [TimerTask.world, ho, hfst]⟩
  · rw [hlast]
    rfl

/-- C10 at `steps = 4`: five handler calls, indices 0 to 4, the fifth giving
the promise its value. -/
theorem C10_timer_tick_count_witness :
    (1 : Int) ≤ 4 ∧ (4 : Int) ≤ 2147483647 ∧
    ∃ final : TimerWorld,
      (∀ fuel : Nat, (4 : Int).toNat + 2 ≤ fuel →
        startTimer TimedTransition.ready (TimedTransition.handler ⟨1, 10, 1⟩ 4) id fuel
          (TimedTransition.start (fun _ => 0)) = some final) ∧
      (∀ fuel : Nat, fuel < (4 : Int).toNat + 2 →
        startTimer TimedTransition.ready (TimedTransition.handler ⟨1, 10, 1⟩ 4) id fuel
          (TimedTransition.start (fun _ => 0)) = none) ∧
      final.out.map Prod.fst = (List.range ((4 : Int).toNat + 1)).map Int.ofNat ∧
      final.out.length = (4 : Int).toNat + 1 ∧
      final.brake = true ∧
      (∀ k : Nat, k ≤ (4 : Int).toNat →
        (TimedTransition.task ⟨1, 10, 1⟩ 4 (TimedTransition.start (fun _ => 0)) k).world.brake
          = false ∧
        (TimedTransition.task ⟨1, 10, 1⟩ 4 (TimedTransition.start (fun _ => 0)) k).world.out.map
            Prod.fst = (List.range k).map Int.ofNat) ∧
      (TimedTransition.task ⟨1, 10, 1⟩ 4 (TimedTransition.start (fun _ => 0))
          ((4 : Int).toNat + 1)).world = final :=
  ⟨by decide, by decide,
    C10_timer_tick_count ⟨1, 10, 1⟩ 4 (fun _ => 0) (by decide) (by decide)⟩

/-! ## Phase schedule and cancellation -/

theorem TimedTransition.phaseAt_eq (t : Transition) (_steps _iter : Int) (w : TimerWorld) :
    TimedTransition.phaseAt t _steps _iter w
      = ((_iter : ℚ) + 1) / ((wrapInt32 (_steps + 1) : Int) : ℚ) := by
  simp [TimedTransition.phaseAt, TimedTransition.handler, Transition.setPhase]

/-- C11, as stated, fails at `steps = 2147483647`: `_steps + 1` is computed
in `int` and wraps to `-2147483648`, so tick 0 sets the phase to
`1 / (-2147483648)`, which is negative and is not `(0+1)/(steps+1)`. -/
theorem C11_counterexample :
    TimedTransition.phaseAt ⟨1, 10, 1⟩ 2147483647 0 (TimedTransition.start (fun _ => 0))
      = 1 / (-2147483648) ∧
    TimedTransition.phaseAt ⟨1, 10, 1⟩ 2147483647 0 (TimedTransition.start (fun _ => 0)) < 0 ∧
    TimedTransition.phaseAt ⟨1, 10, 1⟩ 2147483647 0 (TimedTransition.start (fun _ => 0))
      ≠ (0 + 1) / (2147483647 + 1) := by
  rw [TimedTransition.phaseAt_eq]
  have h : wrapInt32 (2147483647 + 1) = -2147483648 := by decide
  rw [h]
  norm_num

/-- C11, amended: for `1 ≤ steps ≤ 2147483646` (so that `_steps + 1` is an
`int`) and every tick index `0 ≤ i ≤ steps`, tick `i` sets the phase to
`(i+1)/(steps+1)`, which lies in `(0, 1]`; the next tick sets a phase larger
by exactly `1/(steps+1)`; tick `steps` sets the phase to 1. -/
theorem C11_phase_schedule (t : Transition) (steps i : Int) (w w' : TimerWorld)
    (h₁ : 1 ≤ steps) (h₂ : steps ≤ 2147483646) (hi₀ : 0 ≤ i) (hi : i ≤ steps) :
    TimedTransition.phaseAt t steps i w = ((i : ℚ) + 1) / ((steps : ℚ) + 1) ∧
    0 < TimedTransition.phaseAt t steps i w ∧
    TimedTransition.phaseAt t steps i w ≤ 1 ∧
    TimedTransition.phaseAt t steps (i + 1) w' - TimedTransition.phaseAt t steps i w
      = 1 / ((steps : ℚ) + 1) ∧
    TimedTransition.phaseAt t steps i w < TimedTransition.phaseAt t steps (i + 1) w' ∧
    TimedTransition.phaseAt t steps steps w = 1 := by
  have hw : wrapInt32 (steps + 1) = steps + 1 := by
    rw [wrapInt32_eq_self] <;> omega
  have hs : (0 : ℚ) < (steps : ℚ) + 1 := by
    have : (1 : ℚ) ≤ (steps : ℚ) := by exact_mod_cast h₁
    linarith
  have hi₀' : (0 : ℚ) ≤ (i : ℚ) := by exact_mod_cast hi₀
  have hi' : (i : ℚ) ≤ (steps : ℚ) := by exact_mod_cast hi
  simp only [TimedTransition.phaseAt_eq, hw, Int.cast_add, Int.cast_one]
  refine ⟨trivial, ?_, ?_, ?_, ?_, ?_⟩
  · apply div_pos <;> linarith
  · rw [div_le_one hs]
    linarith
  · field_simp
  · exact div_lt_div_of_pos_right (by linarith) hs
  · exact div_self (ne_of_gt hs)

/-- C11 amended, at `steps = 4`, tick `2`: the phase is `3/5`. -/
theorem C11_phase_schedule_witness :
    (1 : Int) ≤ 4 ∧ (4 : Int) ≤ 2147483646 ∧ (0 : Int) ≤ 2 ∧ (2 : Int) ≤ 4 ∧
    TimedTransition.phaseAt ⟨1, 10, 1⟩ 4 2 (TimedTransition.start (fun _ => 0))
      = (((2 : Int) : ℚ) + 1) / (((4 : Int) : ℚ) + 1) :=
  ⟨by decide, by decide, by decide, by decide,
    (C11_phase_schedule ⟨1, 10, 1⟩ 4 2 (TimedTransition.start (fun _ => 0))
      (TimedTransition.start (fun _ => 0)) (by decide) (by decide) (by decide) (by decide)).1⟩

/-- C12: in every state of the promise, `cancel()` returns normally (the
`std::future_error` of a second `set_value` is caught), leaves the signal
raised and changes nothing else; `cancel(); cancel()` leaves the state that a
single `cancel()` leaves, and `cancel()` on a raised signal changes nothing. -/
theorem C12_cancel_idempotent (w : TimerWorld) :
    (TimedTransition.cancelCall w).1 = Except.ok () ∧
    (TimedTransition.cancelCall w).2 = TimedTransition.cancel w ∧
    (TimedTransition.cancel w).brake = true ∧
    (TimedTransition.cancel w).phases = w.phases ∧
    (TimedTransition.cancel w).out = w.out ∧
    TimedTransition.cancel (TimedTransition.cancel w) = TimedTransition.cancel w ∧
    (TimedTransition.cancelCall (TimedTransition.cancelCall w).2).1 = Except.ok () ∧
    (TimedTransition.cancelCall (TimedTransition.cancelCall w).2).2
      = (TimedTransition.cancelCall w).2 := by
  obtain ⟨ph, b, o⟩ := w
  cases b <;> simp [TimedTransition.cancelCall, TimedTransition.cancel, promise_set_value]

/-! ## Repeated reads -/

theorem afterReads_pureNodes {E T : Type} (nodes : List (ConstraintID × (T → T))) (b : T)
    (env : E) (n : Nat) :
    (⟨pureNodes nodes, b⟩ : ValueProperty E T).afterReads env n
      = (⟨pureNodes nodes, (foldPure nodes)^[n] b⟩, env) := by
  induction n with
  | zero => rfl
  | succ n ih =>
    simp only [ValueProperty.afterReads, ih, ValueProperty.get, ValueProperty.applyConstraints,
      accumulate_pureNodes, Function.iterate_succ_apply']

/-- C19: `get()` stores the value it returns as the base (for every property
and captured state); on a chain of capture-free closures with fold `F` and
base `b`, after `n` reads the base is `F` applied `n` times to `b`, the chain
is unchanged and the next read returns `F` applied `n + 1` times; two
consecutive reads agree exactly when `F (F b) = F b`; and `removeConstraint`
after a read leaves the base that the read stored. -/
theorem C19_get_writes_back {E T : Type} (nodes : List (ConstraintID × (T → T))) (b : T)
    (env : E) :
    (∀ (p : ValueProperty E T) (e : E), (p.get e).2.1.value = (p.get e).1) ∧
    (∀ n : Nat,
      ((⟨pureNodes nodes, b⟩ : ValueProperty E T).afterReads env n).1.value
        = (foldPure nodes)^[n] b ∧
      ((⟨pureNodes nodes, b⟩ : ValueProperty E T).afterReads env n).1.constraints
        = pureNodes nodes ∧
      (⟨pureNodes nodes, b⟩ : ValueProperty E T).readNo env n = (foldPure nodes)^[n + 1] b) ∧
    ((⟨pureNodes nodes, b⟩ : ValueProperty E T).readNo env 1
        = (⟨pureNodes nodes, b⟩ : ValueProperty E T).readNo env 0
      ↔ foldPure nodes (foldPure nodes b) = foldPure nodes b) ∧
    (∀ cid : ConstraintID,
      (((⟨pureNodes nodes, b⟩ : ValueProperty E T).get env).2.1.removeConstraint cid).value
        = foldPure nodes b) := by
  refine ⟨fun _ _ => rfl, ?_, ?_, ?_⟩
  · intro n
    simp only [ValueProperty.readNo, afterReads_pureNodes, ValueProperty.get,
      ValueProperty.applyConstraints, accumulate_pureNodes, Function.iterate_succ_apply']
    exact ⟨trivial, trivial, trivial⟩
  · simp only [ValueProperty.readNo, afterReads_pureNodes, ValueProperty.get,
      ValueProperty.applyConstraints, accumulate_pureNodes, Function.iterate_succ,
      Function.iterate_zero, Function.comp_apply, id_eq]
  · intro cid
    simp [ValueProperty.removeConstraint, ValueProperty.get, ValueProperty.applyConstraints,
      accumulate_pureNodes]

theorem Transition.afterReads_installed (b t : ℚ) (self : Nat) (ph : Phases) (n : Nat) :
    (⟨[(1, Transition.lambda self t)], b⟩ : Property Phases ℚ).afterReads ph n
      = (⟨[(1, Transition.lambda self t)], t + (b - t) * (1 - ph self) ^ n⟩, ph) := by
  induction n with
  | zero => simp [ValueProperty.afterReads]
  | succ n ih =>
    simp only [ValueProperty.afterReads, ih, ValueProperty.get, ValueProperty.applyConstraints,
      accumulate, Transition.lambda]
    congr 2
    ring

theorem Transition.ctor_property (b t : ℚ) (self : Nat) (phases : Phases) :
    (Transition.ctor self ⟨[], b⟩ phases t).2.1 = ⟨[(1, Transition.lambda self t)], b⟩ := by
  simp [Transition.ctor, ValueProperty.addConstraint, push_back, freshNode]

/-- C20: on a `Property` with base `b` and no other constraint, with a
`Transition` towards `t` installed and its phase set to `p`, the `k`-th of `k`
consecutive `get()` calls (`k = n + 1`) returns `t + (b - t)*(1-p)^k`; when
the `Transition` is destroyed after `k` reads the stored base and `get()` equal
`t + (b - t)*(1-p)^k`; and for `0 < p ≤ 1` no read is farther from `t` than the
read before it (nor the first read than `b`). -/
theorem C20_reads_compound_transition (b t p : ℚ) (self : Nat) (phases : Phases) :
    (∀ n : Nat,
      (Transition.ctor self ⟨[], b⟩ phases t).2.1.readNo
          ((Transition.ctor self ⟨[], b⟩ phases t).1.setPhase
            (Transition.ctor self ⟨[], b⟩ phases t).2.2 p) n
        = t + (b - t) * (1 - p) ^ (n + 1)) ∧
    (∀ k : Nat,
      ((Transition.ctor self ⟨[], b⟩ phases t).1.dtor
          ((Transition.ctor self ⟨[], b⟩ phases t).2.1.afterReads
            ((Transition.ctor self ⟨[], b⟩ phases t).1.setPhase
              (Transition.ctor self ⟨[], b⟩ phases t).2.2 p) k).1).value
        = t + (b - t) * (1 - p) ^ k ∧
      (((Transition.ctor self ⟨[], b⟩ phases t).1.dtor
          ((Transition.ctor self ⟨[], b⟩ phases t).2.1.afterReads
            ((Transition.ctor self ⟨[], b⟩ phases t).1.setPhase
              (Transition.ctor self ⟨[], b⟩ phases t).2.2 p) k).1).get
          ((Transition.ctor self ⟨[], b⟩ phases t).1.setPhase
            (Transition.ctor self ⟨[], b⟩ phases t).2.2 p)).1
        = t + (b - t) * (1 - p) ^ k) ∧
    (0 < p → p ≤ 1 → ∀ n : Nat,
      |(Transition.ctor self ⟨[], b⟩ phases t).2.1.readNo
          ((Transition.ctor self ⟨[], b⟩ phases t).1.setPhase
            (Transition.ctor self ⟨[], b⟩ phases t).2.2 p) (n + 1) - t|
        ≤ |(Transition.ctor self ⟨[], b⟩ phases t).2.1.readNo
          ((Transition.ctor self ⟨[], b⟩ phases t).1.setPhase
            (Transition.ctor self ⟨[], b⟩ phases t).2.2 p) n - t| ∧
      |(Transition.ctor self ⟨[], b⟩ phases t).2.1.readNo
          ((Transition.ctor self ⟨[], b⟩ phases t).1.setPhase
            (Transition.ctor self ⟨[], b⟩ phases t).2.2 p) 0 - t| ≤ |b - t|) := by
  have hph : ((Transition.ctor self ⟨[], b⟩ phases t).1.setPhase
      (Transition.ctor self ⟨[], b⟩ phases t).2.2 p) self = p := by
    simp [Transition.ctor, Transition.setPhase]
  have hcid : (Transition.ctor self ⟨[], b⟩ phases t).1.transition_constraint_id = 1 := by
    simp [Transition.ctor, ValueProperty.addConstraint, freshNode]
  have hread : ∀ n : Nat,
      (Transition.ctor self ⟨[], b⟩ phases t).2.1.readNo
          ((Transition.ctor self ⟨[], b⟩ phases t).1.setPhase
            (Transition.ctor self ⟨[], b⟩ phases t).2.2 p) n
        = t + (b - t) * (1 - p) ^ (n + 1) := by
    intro n
    rw [Transition.ctor_property]
    simp only [ValueProperty.readNo, Transition.afterReads_installed, ValueProperty.get,
      ValueProperty.applyConstraints, accumulate, Transition.lambda, hph]
    ring
  refine ⟨hread, ?_, ?_⟩
  · intro k
    rw [Transition.ctor_property] at *
    simp [Transition.afterReads_installed, Transition.dtor, ValueProperty.removeConstraint,
      hcid, hph, ValueProperty.get, ValueProperty.applyConstraints, accumulate]
  · intro hp₀ hp₁ n
    have habs : |1 - p| ≤ 1 := by
      rw [abs_le]
      constructor <;> linarith
    have hpow : ∀ m : Nat, |(b - t) * (1 - p) ^ (m + 1)| ≤ |(b - t) * (1 - p) ^ m| := by
      intro m
      rw [pow_succ, ← mul_assoc, abs_mul ((b - t) * (1 - p) ^ m)]
      exact mul_le_of_le_one_right (abs_nonneg _) habs
    constructor
    · rw [hread, hread]
      simpa using hpow (n + 1)
    · rw [hread]
      simpa using hpow 0

/-- C20 at phase `1/2`: the bound on the distance to the target applies. -/
theorem C20_reads_compound_transition_witness :
    (0 : ℚ) < 1 / 2 ∧ (1 / 2 : ℚ) ≤ 1 ∧
    |(Transition.ctor 1 ⟨[], 0⟩ (fun _ => 0) 10).2.1.readNo
        ((Transition.ctor 1 ⟨[], 0⟩ (fun _ => 0) 10).1.setPhase
          (Transition.ctor 1 ⟨[], 0⟩ (fun _ => 0) 10).2.2 (1 / 2)) 0 - 10| ≤ |(0 : ℚ) - 10| :=
  ⟨by norm_num, by norm_num,
    ((C20_reads_compound_transition 0 10 (1 / 2) 1 (fun _ => 0)).2.2
      (by norm_num) (by norm_num) 0).2⟩

/-! ## Grab, makeSurface, Follow -/

/-- C14: whatever the origin, destroying a `Grab` with offset `(dx, dy)` on a
surface whose rectangle stores `left = l` and `top = t` leaves `left = l + dx`
and `top = t + dy` stored, and leaves `width`, `height`, `right`, `bottom`,
the chains of `left` and `top`, the identity and the buffer as they were;
left 10, top 20 and offset (20, 15), accumulated as in `main()`, give 30 and
35. -/
theorem C14_grab_commits_offset (s : Surface) (g : Grab) :
    (g.dtor s).rect.left.value = s.rect.left.value + g.offset.x ∧
    (g.dtor s).rect.top.value = s.rect.top.value + g.offset.y ∧
    (g.dtor s).rect.left.constraints = s.rect.left.constraints ∧
    (g.dtor s).rect.top.constraints = s.rect.top.constraints ∧
    (g.dtor s).rect.width = s.rect.width ∧
    (g.dtor s).rect.height = s.rect.height ∧
    (g.dtor s).rect.right = s.rect.right ∧
    (g.dtor s).rect.bottom = s.rect.bottom ∧
    (g.dtor s).id = s.id ∧ (g.dtor s).data = s.data ∧
    (∀ o : Vec2f, ({ g with origin := o } : Grab).dtor s = g.dtor s) ∧
    (∀ o : Vec2f,
      (({ Grab.ctor o with offset := (Grab.ctor o).offset.add ⟨20, 15⟩ } : Grab).dtor
          { s with rect :=
              (Rect.calls (fun _ => 0) s.rect
                [.setLeft 10, .setTop 20, .setWidth 320, .setHeight 240]) }).rect.left.value
        = 30 ∧
      (({ Grab.ctor o with offset := (Grab.ctor o).offset.add ⟨20, 15⟩ } : Grab).dtor
          { s with rect :=
              (Rect.calls (fun _ => 0) s.rect
                [.setLeft 10, .setTop 20, .setWidth 320, .setHeight 240]) }).rect.top.value
        = 35) := by
  refine ⟨rfl, rfl, rfl, rfl, rfl, rfl, rfl, rfl, rfl, rfl, fun _ => rfl, ?_⟩
  intro o
  constructor <;>
    norm_num [Grab.dtor, Grab.ctor, Vec2f.add, Property.addAssign, Property.set, Rect.calls,
      Rect.call]

theorem Compositor.makeSurfaces_eq (strs : List String) (n counter : Nat) :
    Compositor.makeSurfaces strs n counter
      = ((List.range n).map (fun k =>
            match strs[counter + k]? with
            | some name => Except.ok { Surface.new with id := name }
            | none => Except.error "Out of names"),
          max counter (min (counter + n) strs.length)) := by
  induction n generalizing counter with
  | zero =>
    refine Prod.ext rfl ?_
    simp only [Compositor.makeSurfaces]
    omega
  | succ n ih =>
    by_cases h : strs.length ≤ counter
    · have hms : Compositor.makeSurface strs counter = (Except.error "Out of names", counter) := by
        simp [Compositor.makeSurface, h]
      have hfun : ∀ k, strs[counter + k]? = none := fun k => List.getElem?_eq_none (by omega)
      rw [Compositor.makeSurfaces, hms, ih]
      refine Prod.ext ?_ ?_
      · simp only [hfun, List.map_const', List.length_range]
        rfl
      · simp only
        omega
    · have hlt : counter < strs.length := Nat.lt_of_not_le h
      have hms : Compositor.makeSurface strs counter
          = (Except.ok { Surface.new with id := strs.get ⟨counter, hlt⟩ }, counter + 1) := by
        simp [Compositor.makeSurface, h]
      have hsome : strs[counter]? = some (strs.get ⟨counter, hlt⟩) := by
        simp [List.getElem?_eq_getElem hlt]
      rw [Compositor.makeSurfaces, hms, ih, List.range_succ_eq_map, List.map_cons, List.map_map]
      refine Prod.ext ?_ ?_
      · simp only [Nat.add_zero, hsome, List.cons.injEq, true_and]
        apply List.map_congr_left
        intro k _
        simp only [Function.comp_apply]
        rw [show counter + 1 + k = counter + (k + 1) by omega]
      · simp only
        omega

/-- C15: with a pool `strs` of `N` entries and the counter starting at 0, in
a run of `n` `makeSurface()` calls the call number `k + 1` succeeds exactly
when `k < N`, and then returns a fresh surface whose identity is the pool
entry `strs[k]`; every other call throws `"Out of names"`; the counter ends at
`min n N`; and a call made with the counter at `N` or beyond throws and
leaves the counter as it is. -/
theorem C15_identity_allocation (strs : List String) (n : Nat) :
    (Compositor.makeSurfaces strs n 0).1
      = (List.range n).map (fun k =>
          match strs[k]? with
          | some name => Except.ok { Surface.new with id := name }
          | none => Except.error "Out of names") ∧
    (Compositor.makeSurfaces strs n 0).2 = min n strs.length ∧
    (∀ k : Nat, k < n →
      ((∃ s : Surface, (Compositor.makeSurfaces strs n 0).1[k]? = some (Except.ok s))
        ↔ k < strs.length)) ∧
    (∀ counter : Nat, strs.length ≤ counter →
      Compositor.makeSurface strs counter = (Except.error "Out of names", counter)) := by
  have h := Compositor.makeSurfaces_eq strs n 0
  simp only [Nat.zero_add] at h
  refine ⟨by rw [h], ?_, ?_, ?_⟩
  · rw [h]
    simp only
    omega
  · intro k hk
    rw [h]
    simp only [List.getElem?_map, List.getElem?_range hk, Option.map_some']
    constructor
    · rintro ⟨s, hs⟩
      rcases Nat.lt_or_ge k strs.length with hlt | hge
      · exact hlt
      · rw [List.getElem?_eq_none hge] at hs
        simp at hs
    · intro hlt
      rw [List.getElem?_eq_getElem hlt]
      exact ⟨_, rfl⟩
  · intro counter hc
    simp [Compositor.makeSurface, hc]

/-- C15 on a pool of two names: the third call is made with the counter at
2 and throws. -/
theorem C15_identity_allocation_witness :
    (0 : Nat) < 3 ∧
    ((∃ s : Surface,
        (Compositor.makeSurfaces ["alice", "bob"] 3 0).1[0]? = some (Except.ok s))
      ↔ 0 < ["alice", "bob"].length) :=
  ⟨by decide, (C15_identity_allocation ["alice", "bob"] 3).2.2.1 0 (by decide)⟩

theorem accumulate_keeps_target {E T : Type}
    (chain : List (ConstraintID × Constraint (FollowCapture E T) T))
    (hframe : ∀ n ∈ chain, ∀ (v : T) (c : FollowCapture E T), c.target.constraints = [] →
      (n.2 v c).2.target = c.target)
    (v : T) (c : FollowCapture E T) (hc : c.target.constraints = []) :
    (accumulate chain v c).2.target = c.target := by
  induction chain generalizing v c with
  | nil => rfl
  | cons n rest ih =>
    have hn := hframe n (List.mem_cons_self _ _) v c hc
    simp only [accumulate]
    rw [ih (fun m hm => hframe m (List.mem_cons_of_mem _ hm)) _ _ (by rw [hn]; exact hc), hn]

/-- C16: with `Follow(q)` added to `p` as the last constraint, `p.get()`
returns what `q.get()` returns when the closure runs, i.e. in the state the
earlier closures of `p` left; when `q` carries no constraint and the earlier
closures of `p` leave `q` as it is (closures that capture nothing, closures
that only read), that is the stored value of `q`, whatever the base of `p`,
and after a later `q.set(v)` the next `p.get()` returns `v`; `p2 = 0`, `p3`
following `p2`, then `p2.set(10)` give `p3.get() = 10`. -/
theorem C16_follow_reads_target_live {E T : Type} (env : E) :
    (∀ (p : Property (FollowCapture E T) T) (c : FollowCapture E T),
      ((p.addConstraint constraints.Follow).2.get c).1
        = ((accumulate p.constraints p.value c).2.target.get
            (accumulate p.constraints p.value c).2.env).1) ∧
    (∀ (nodes : List (ConstraintID × (T → T))) (b x v : T),
      (((⟨pureNodes nodes, b⟩ : Property (FollowCapture E T) T).addConstraint
          constraints.Follow).2.get ⟨⟨[], x⟩, env⟩).1 = x ∧
      (((⟨pureNodes nodes, b⟩ : Property (FollowCapture E T) T).addConstraint
          constraints.Follow).2.get ⟨(Property.set ⟨[], x⟩ v).2, env⟩).1 = v ∧
      (((((⟨pureNodes nodes, b⟩ : Property (FollowCapture E T) T).addConstraint
          constraints.Follow).2.get ⟨⟨[], x⟩, env⟩).2.1).get
            ⟨(Property.set
                ((((⟨pureNodes nodes, b⟩ : Property (FollowCapture E T) T).addConstraint
                  constraints.Follow).2.get ⟨⟨[], x⟩, env⟩).2.2).target v).2, env⟩).1 = v) ∧
    (∀ (p : Property (FollowCapture E T) T) (x v : T),
      (∀ n ∈ p.constraints, ∀ (u : T) (c : FollowCapture E T), c.target.constraints = [] →
        (n.2 u c).2.target = c.target) →
      ((p.addConstraint constraints.Follow).2.get ⟨⟨[], x⟩, env⟩).1 = x ∧
      ((p.addConstraint constraints.Follow).2.get ⟨(Property.set ⟨[], x⟩ v).2, env⟩).1 = v) ∧
    ((((Property.new 0 : Property (FollowCapture Unit ℚ) ℚ).addConstraint
        constraints.Follow).2.get ⟨(Property.set (Property.new 0) 10).2, ()⟩).1 = 10) := by
  have hgen : ∀ (p : Property (FollowCapture E T) T) (c : FollowCapture E T),
      ((p.addConstraint constraints.Follow).2.get c).1
        = ((accumulate p.constraints p.value c).2.target.get
            (accumulate p.constraints p.value c).2.env).1 := by
    intro p c
    simp [ValueProperty.get, ValueProperty.applyConstraints, ValueProperty.addConstraint,
      push_back, accumulate_append, accumulate, constraints.Follow]
  refine ⟨hgen, ?_, ?_, ?_⟩
  · intro nodes b x v
    simp [ValueProperty.get, ValueProperty.applyConstraints, ValueProperty.addConstraint,
      push_back, accumulate_append, accumulate, constraints.Follow, accumulate_pureNodes,
      Property.set]
  · intro p x v hframe
    constructor
    · rw [hgen, accumulate_keeps_target p.constraints hframe _ _ rfl]
      rfl
    · rw [hgen, accumulate_keeps_target p.constraints hframe _ _ rfl]
      rfl
  · simp [ValueProperty.get, ValueProperty.applyConstraints, ValueProperty.addConstraint,
      push_back, accumulate_append, accumulate, constraints.Follow, Property.set, Property.new,
      Property.default]

/-- C16 with an earlier `Follow(q)` in the chain of `p`: it leaves a `q`
without constraints as it is, and `p.get()` returns the value of `q`. -/
theorem C16_follow_reads_target_live_witness :
    (∀ n ∈ (⟨[(1, constraints.Follow)], 0⟩ : Property (FollowCapture Unit ℚ) ℚ).constraints,
      ∀ (u : ℚ) (c : FollowCapture Unit ℚ), c.target.constraints = [] →
        (n.2 u c).2.target = c.target) ∧
    (((⟨[(1, constraints.Follow)], 0⟩ : Property (FollowCapture Unit ℚ) ℚ).addConstraint
        constraints.Follow).2.get ⟨⟨[], 10⟩, ()⟩).1 = 10 :=
  have h : ∀ n ∈ (⟨[(1, constraints.Follow)], 0⟩ : Property (FollowCapture Unit ℚ) ℚ).constraints,
      ∀ (u : ℚ) (c : FollowCapture Unit ℚ), c.target.constraints = [] →
        (n.2 u c).2.target = c.target := by
    intro n hn u c hc
    rw [List.mem_singleton] at hn
    subst hn
    obtain ⟨⟨tc, tv⟩, e⟩ := c
    simp only at hc
    subst hc
    simp [constraints.Follow, ValueProperty.get, ValueProperty.applyConstraints, accumulate]
  ⟨h, ((C16_follow_reads_target_live ()).2.2.1 ⟨[(1, constraints.Follow)], 0⟩ 10 0 h).1⟩

/-! ## compose -/

theorem Rect.read_canon (ph : Phases) (lc tc wc hc : List (ConstraintID × Constraint Phases ℚ))
    (Gl Gt Gw Gh : ℚ → ℚ)
    (hl : ∀ v, accumulate lc v ph = (Gl v, ph)) (ht : ∀ v, accumulate tc v ph = (Gt v, ph))
    (hw : ∀ v, accumulate wc v ph = (Gw v, ph)) (hh : ∀ v, accumulate hc v ph = (Gh v, ph))
    (vl vt vw vh vr vb : ℚ) :
    (Rect.canon lc tc wc hc vl vt vw vh vr vb).read ph .left
        = (Gl vl, Rect.canon lc tc wc hc (Gl vl) vt vw vh vr vb, ph) ∧
    (Rect.canon lc tc wc hc vl vt vw vh vr vb).read ph .top
        = (Gt vt, Rect.canon lc tc wc hc vl (Gt vt) vw vh vr vb, ph) ∧
    (Rect.canon lc tc wc hc vl vt vw vh vr vb).read ph .right
        = (Gl vl + Gw vw, Rect.canon lc tc wc hc (Gl vl) vt (Gw vw) vh (Gl vl + Gw vw) vb, ph) ∧
    (Rect.canon lc tc wc hc vl vt vw vh vr vb).read ph .bottom
        = (Gt vt + Gh vh, Rect.canon lc tc wc hc vl (Gt vt) vw (Gh vh) vr (Gt vt + Gh vh), ph) := by
  refine ⟨?_, ?_, ?_, ?_⟩ <;>
    simp [Rect.read, Rect.canon, Rect.getLeft, Rect.getTop, Rect.getRight, Rect.getBottom,
      ValueProperty.get, ValueProperty.applyConstraints, Rect.sumLambda, accumulate, hl, ht, hw,
      hh]

theorem TupleArg.orders (order : List TupleArg) (h : order.Perm TupleArg.written) :
    ∃ w x y z, order = [w, x, y, z] := by
  have hlen : order.length = 4 := h.length_eq
  match order, hlen with
  | [w, x, y, z], _ => exact ⟨w, x, y, z, rfl⟩

theorem Rect.asTuple_canon (order : List TupleArg) (horder : order.Perm TupleArg.written)
    (ph : Phases) (lc tc wc hc : List (ConstraintID × Constraint Phases ℚ))
    (Gl Gt Gw Gh : ℚ → ℚ)
    (hl : ∀ v, accumulate lc v ph = (Gl v, ph)) (ht : ∀ v, accumulate tc v ph = (Gt v, ph))
    (hw : ∀ v, accumulate wc v ph = (Gw v, ph)) (hh : ∀ v, accumulate hc v ph = (Gh v, ph))
    (vl vt vw vh vr vb : ℚ) :
    (Rect.canon lc tc wc hc vl vt vw vh vr vb).asTuple order ph
      = ((if TupleArg.before order .right .left then Gl (Gl vl) else Gl vl,
          if TupleArg.before order .bottom .top then Gt (Gt vt) else Gt vt,
          (if TupleArg.before order .right .left then Gl vl else Gl (Gl vl)) + Gw vw,
          (if TupleArg.before order .bottom .top then Gt vt else Gt (Gt vt)) + Gh vh),
         Rect.canon lc tc wc hc (Gl (Gl vl)) (Gt (Gt vt)) (Gw vw) (Gh vh)
           ((if TupleArg.before order .right .left then Gl vl else Gl (Gl vl)) + Gw vw)
           ((if TupleArg.before order .bottom .top then Gt vt else Gt (Gt vt)) + Gh vh),
         ph) := by
  obtain ⟨w, x, y, z, rfl⟩ := TupleArg.orders order horder
  have hr := Rect.read_canon ph lc tc wc hc Gl Gt Gw Gh hl ht hw hh
  have r₁ := fun a b c d e f => (hr a b c d e f).1
  have r₂ := fun a b c d e f => (hr a b c d e f).2.1
  have r₃ := fun a b c d e f => (hr a b c d e f).2.2.1
  have r₄ := fun a b c d e f => (hr a b c d e f).2.2.2
  cases w <;> cases x <;> cases y <;> cases z <;>
    first
    | (exfalso; revert horder; decide)
    | simp [Rect.asTuple, Rect.evalArgs, r₁, r₂, r₃, r₄, TupleArg.before, List.indexOf_cons,
        Function.update]

theorem Rect.eq_canon (r : Rect) (h : r.DerivedWired) :
    r = Rect.canon r.left.constraints r.top.constraints r.width.constraints
      r.height.constraints r.left.value r.top.value r.width.value r.height.value r.right.value
      r.bottom.value := by
  obtain ⟨hr, hb⟩ := h
  obtain ⟨⟨lc, lv⟩, ⟨tc, tv⟩, ⟨wc, wv⟩, ⟨hc, hv⟩, ⟨rc, rv⟩, ⟨bc, bv⟩⟩ := r
  simp only at hr hb
  subst hr hb
  rfl

theorem Rect.asTuple_readonly (order : List TupleArg) (horder : order.Perm TupleArg.written)
    (ph : Phases) (r : Rect) (hd : r.DerivedWired) (Gl Gt Gw Gh : ℚ → ℚ)
    (hl : ∀ v, accumulate r.left.constraints v ph = (Gl v, ph))
    (ht : ∀ v, accumulate r.top.constraints v ph = (Gt v, ph))
    (hw : ∀ v, accumulate r.width.constraints v ph = (Gw v, ph))
    (hh : ∀ v, accumulate r.height.constraints v ph = (Gh v, ph)) :
    (r.asTuple order ph).1
      = (if TupleArg.before order .right .left then Gl (Gl r.left.value) else Gl r.left.value,
         if TupleArg.before order .bottom .top then Gt (Gt r.top.value) else Gt r.top.value,
         (if TupleArg.before order .right .left then Gl r.left.value else Gl (Gl r.left.value))
           + Gw r.width.value,
         (if TupleArg.before order .bottom .top then Gt r.top.value else Gt (Gt r.top.value))
           + Gh r.height.value) ∧
    (r.asTuple order ph).2.1.left = ⟨r.left.constraints, Gl (Gl r.left.value)⟩ ∧
    (r.asTuple order ph).2.1.top = ⟨r.top.constraints, Gt (Gt r.top.value)⟩ ∧
    (r.asTuple order ph).2.1.width = ⟨r.width.constraints, Gw r.width.value⟩ ∧
    (r.asTuple order ph).2.1.height = ⟨r.height.constraints, Gh r.height.value⟩ ∧
    (r.asTuple order ph).2.1.right.constraints = r.right.constraints ∧
    (r.asTuple order ph).2.1.bottom.constraints = r.bottom.constraints ∧
    (r.asTuple order ph).2.2 = ph := by
  have h := Rect.asTuple_canon order horder ph r.left.constraints r.top.constraints
    r.width.constraints r.height.constraints Gl Gt Gw Gh hl ht hw hh r.left.value r.top.value
    r.width.value r.height.value r.right.value r.bottom.value
  rw [← Rect.eq_canon r hd] at h
  rw [h]
  exact ⟨rfl, rfl, rfl, rfl, rfl, hd.1.symm, hd.2.symm, rfl⟩

theorem Rect.asTuple_wired (order : List TupleArg) (horder : order.Perm TupleArg.written)
    (r : Rect) (ph : Phases) (h : r.Wired) :
    (r.asTuple order ph).1 = (r.left.value, r.top.value, r.left.value + r.width.value,
      r.top.value + r.height.value) ∧
    (r.asTuple order ph).2.1.left = r.left ∧ (r.asTuple order ph).2.1.top = r.top ∧
    (r.asTuple order ph).2.1.width = r.width ∧ (r.asTuple order ph).2.1.height = r.height ∧
    (r.asTuple order ph).2.1.right.constraints = r.right.constraints ∧
    (r.asTuple order ph).2.1.bottom.constraints = r.bottom.constraints ∧
    (r.asTuple order ph).2.2 = ph := by
  obtain ⟨hl, ht, hw, hh, hr, hb⟩ := h
  obtain ⟨h₁, h₂, h₃, h₄, h₅, h₆, h₇, h₈⟩ :=
    Rect.asTuple_readonly order horder ph r ⟨hr, hb⟩ id id id id
      (fun v => by rw [hl]; rfl) (fun v => by rw [ht]; rfl) (fun v => by rw [hw]; rfl)
      (fun v => by rw [hh]; rfl)
  refine ⟨?_, ?_, ?_, ?_, ?_, h₆, h₇, h₈⟩
  · rw [h₁]
    simp
  · rw [h₂]; rfl
  · rw [h₃]; rfl
  · rw [h₄]; rfl
  · rw [h₅]; rfl

/-- A `Transition` towards 10 at phase 1/2 on `left` (stored 0) and width 100:
the arguments read in the written order give `(5, 0, 215/2, 0)`, read last to
first they give `(15/2, 0, 105, 0)`. -/
theorem Rect.asTuple_orders :
    ((RectWorld.run (fun _ => 0)
        [.set .width 100, .construct .left 10, .setPhase 0 (1 / 2)]).rect.asTuple
      TupleArg.written
      (RectWorld.run (fun _ => 0)
        [.set .width 100, .construct .left 10, .setPhase 0 (1 / 2)]).phases).1
      = (5, 0, 215 / 2, 0) ∧
    ((RectWorld.run (fun _ => 0)
        [.set .width 100, .construct .left 10, .setPhase 0 (1 / 2)]).rect.asTuple
      TupleArg.lastToFirst
      (RectWorld.run (fun _ => 0)
        [.set .width 100, .construct .left 10, .setPhase 0 (1 / 2)]).phases).1
      = (15 / 2, 0, 105, 0) := by
  constructor <;>
    simp [RectWorld.run, RectWorld.step, Rect.setSide, Rect.side, Rect.asTuple,
      Rect.evalArgs, Rect.read, TupleArg.written, TupleArg.lastToFirst,
      Rect.getRight, Rect.getBottom, Rect.getLeft, Rect.getTop, Rect.new, Rect.setConstraints,
      push_back, freshNode, Property.default, Property.set,
      DependentProperty.default, Transition.ctor, Transition.setPhase, freshObject,
      ValueProperty.addConstraint, ValueProperty.get, ValueProperty.applyConstraints,
      Rect.sumLambda, accumulate, Transition.lambda, Function.update] <;>
    norm_num

theorem Compositor.compose_wired (order : List TupleArg) (horder : order.Perm TupleArg.written)
    (refs : List Nat) (heap : SurfaceHeap) (ph : Phases)
    (hlive : ∀ a ∈ refs, (heap a).isSome = true)
    (hwired : ∀ a s, heap a = some s → s.rect.Wired) :
    (Compositor.compose order refs heap ph).2.1 = refs.map heap.storedCommand := by
  induction refs generalizing heap with
  | nil => rfl
  | cons wptr rest ih =>
    have hw := hlive wptr (List.mem_cons_self _ _)
    obtain ⟨s, hs⟩ := Option.isSome_iff_exists.1 hw
    obtain ⟨hv, hl, ht, hwd, hh, hr, hb, hph⟩ :=
      Rect.asTuple_wired order horder s.rect ph (hwired wptr s hs)
    have hupd : ∀ a, ((Function.update heap wptr
        (some { s with rect := (s.rect.asTuple order ph).2.1 })) a).map Surface.inputs
        = (heap a).map Surface.inputs := by
      intro a
      by_cases ha : a = wptr
      · subst ha
        simp [hs, Surface.inputs, hl, ht, hwd, hh, hr, hb]
      · simp [Function.update_noteq ha]
    have hcases : ∀ a, (∃ x y, (Function.update heap wptr
          (some { s with rect := (s.rect.asTuple order ph).2.1 })) a = some x ∧ heap a = some y ∧
          x.inputs = y.inputs) ∨
        ((Function.update heap wptr
          (some { s with rect := (s.rect.asTuple order ph).2.1 })) a = none ∧ heap a = none) := by
      intro a
      have h := hupd a
      cases hx : (Function.update heap wptr
        (some { s with rect := (s.rect.asTuple order ph).2.1 })) a with
      | some x =>
        cases hy : heap a with
        | none => rw [hx, hy] at h; cases h
        | some y =>
          rw [hx, hy] at h
          exact Or.inl ⟨x, y, rfl, rfl, Option.some.inj h⟩
      | none =>
        cases hy : heap a with
        | none => exact Or.inr ⟨rfl, rfl⟩
        | some y => rw [hx, hy] at h; cases h
    have hlive' : ∀ a ∈ rest, ((Function.update heap wptr
        (some { s with rect := (s.rect.asTuple order ph).2.1 })) a).isSome = true := by
      intro a ha
      rcases hcases a with ⟨x, y, hx, _, _⟩ | ⟨_, hy⟩
      · rw [hx]; rfl
      · have := hlive a (List.mem_cons_of_mem _ ha)
        rw [hy] at this
        cases this
    have hwired' : ∀ a x, (Function.update heap wptr
        (some { s with rect := (s.rect.asTuple order ph).2.1 })) a = some x → x.rect.Wired := by
      intro a x hx
      rcases hcases a with ⟨x', y, hx', hy, hxy⟩ | ⟨hn, _⟩
      · rw [hx] at hx'
        cases hx'
        have hy' := hwired a y hy
        simp only [Surface.inputs, Prod.mk.injEq] at hxy
        obtain ⟨_, e₁, e₂, e₃, e₄, e₅, e₆⟩ := hxy
        simp only [Rect.Wired, e₁, e₂, e₃, e₄, e₅, e₆]
        exact hy'
      · rw [hx] at hn
        cases hn
    have hcmd : ∀ a, SurfaceHeap.storedCommand (Function.update heap wptr
        (some { s with rect := (s.rect.asTuple order ph).2.1 })) a = heap.storedCommand a := by
      intro a
      rcases hcases a with ⟨x, y, hx, hy, hxy⟩ | ⟨hn, hy⟩
      · simp only [Surface.inputs, Prod.mk.injEq] at hxy
        obtain ⟨e₀, e₁, e₂, e₃, e₄, _, _⟩ := hxy
        simp only [SurfaceHeap.storedCommand, hx, hy, e₀, e₁, e₂, e₃, e₄]
      · simp only [SurfaceHeap.storedCommand, hn, hy]
    simp only [Compositor.compose, hs, List.map_cons]
    rw [hph, ih _ hlive' hwired']
    congr 1
    · simp [SurfaceHeap.storedCommand, hs, hv]
    · exact List.map_congr_left (fun a _ => hcmd a)

/-- The scene of `main()`: one surface, left 10, top 20, width 320, height
240, is drawn as `10:330|20:260`, in whatever order `asTuple()` evaluates its
arguments. -/
theorem Compositor.compose_main (order : List TupleArg) (horder : order.Perm TupleArg.written)
    (name : String) :
    (Compositor.compose order [0] (fun a => if a = 0 then some
        { Surface.new with
          id := name
          rect := (Rect.calls (fun _ => 0) Rect.new
            [.setLeft 10, .setTop 20, .setWidth 320, .setHeight 240]) }
        else none) (fun _ => 0)).2.1
      = [{ id := name, x1 := 10, y1 := 20, x2 := 330, y2 := 260 }] := by
  rw [Compositor.compose_wired order horder]
  · norm_num [SurfaceHeap.storedCommand, Rect.calls, Rect.call, Property.set, Rect.new,
      Rect.setConstraints, Property.default]
  · simp
  · intro a s hs
    by_cases ha : a = 0
    · simp only [ha, if_true, Option.some.injEq] at hs
      subst hs
      exact Rect.wired_calls _ _ _ Rect.wired_new
    · simp [ha] at hs

/-! ## A Rect over its lifetime -/

theorem Rect.setSide_derived (r : Rect) (p : Property Phases ℚ) (side : Side) :
    (r.setSide p side).right = r.right ∧ (r.setSide p side).bottom = r.bottom := by
  cases side <;> exact ⟨rfl, rfl⟩

theorem RectWorld.derivedWired_step (s : RectWorld) (op : RectOp) (h : s.rect.DerivedWired) :
    (s.step op).rect.DerivedWired := by
  obtain ⟨hr, hb⟩ := h
  cases op with
  | set side v => simp [RectWorld.step, Rect.DerivedWired, Rect.setSide_derived, hr, hb]
  | get side => simp [RectWorld.step, Rect.DerivedWired, Rect.setSide_derived, hr, hb]
  | getRight =>
    simp [RectWorld.step, Rect.DerivedWired, Rect.getRight, ValueProperty.get,
      ValueProperty.applyConstraints, hr, hb]
  | getBottom =>
    simp [RectWorld.step, Rect.DerivedWired, Rect.getBottom, ValueProperty.get,
      ValueProperty.applyConstraints, hr, hb]
  | addConstraint side c =>
    simp [RectWorld.step, Rect.DerivedWired, Rect.setSide_derived, hr, hb]
  | removeConstraint side cid =>
    simp [RectWorld.step, Rect.DerivedWired, Rect.setSide_derived, hr, hb]
  | construct side target =>
    simp [RectWorld.step, Rect.DerivedWired, Rect.setSide_derived, hr, hb]
  | setPhase k p =>
    simp only [RectWorld.step]
    cases s.live[k]? with
    | none => exact ⟨hr, hb⟩
    | some st => exact ⟨hr, hb⟩
  | destroy k =>
    simp only [RectWorld.step]
    cases s.live[k]? with
    | none => exact ⟨hr, hb⟩
    | some st => simp [Rect.DerivedWired, Rect.setSide_derived, hr, hb]

theorem RectWorld.derivedWired_run (phases : Phases) (ops : List RectOp) :
    (RectWorld.run phases ops).rect.DerivedWired := by
  have h : ∀ (ops : List RectOp) (s : RectWorld), s.rect.DerivedWired →
      (ops.foldl RectWorld.step s).rect.DerivedWired := by
    intro ops
    induction ops with
    | nil => exact fun _ h => h
    | cons op rest ih => exact fun s h => ih (s.step op) (RectWorld.derivedWired_step s op h)
  exact h ops _ ⟨rfl, rfl⟩

theorem Rect.derivedWired_reads (r : Rect) (ph : Phases) (h : r.DerivedWired) :
    (r.getRight ph).1 = Rect.sumInside r.left r.width ph ∧
    (r.getBottom ph).1 = Rect.sumInside r.top r.height ph ∧
    (r.rightIsSum ph ↔ Rect.sumInside r.left r.width ph = Rect.sumAgain r.left r.width ph) ∧
    (r.bottomIsSum ph ↔ Rect.sumInside r.top r.height ph = Rect.sumAgain r.top r.height ph) := by
  obtain ⟨hr, hb⟩ := h
  refine ⟨?_, ?_, ?_, ?_⟩ <;>
    simp [Rect.rightIsSum, Rect.bottomIsSum, Rect.getRight, Rect.getBottom, Rect.getLeft,
      Rect.getTop, Rect.getWidth, Rect.getHeight, Rect.sumInside, Rect.sumAgain,
      ValueProperty.get, ValueProperty.applyConstraints, Rect.sumLambda, accumulate, hr, hb]

theorem Rect.side_setSide_same (r : Rect) (p : Property Phases ℚ) (side : Side) :
    (r.setSide p side).side side = p := by
  cases side <;> rfl

theorem Rect.side_setSide_ne (r : Rect) (p : Property Phases ℚ) (side side' : Side)
    (h : side' ≠ side) : (r.setSide p side).side side' = r.side side' := by
  cases side <;> cases side' <;> first | rfl | exact absurd rfl h

theorem Rect.side_getRight (r : Rect) (ph : Phases) (h : r.DerivedWired) (side : Side) :
    ((r.getRight ph).2.1.side side).constraints = (r.side side).constraints ∧
    ((r.getBottom ph).2.1.side side).constraints = (r.side side).constraints := by
  obtain ⟨hr, hb⟩ := h
  cases side <;>
    simp [Rect.getRight, Rect.getBottom, Rect.side, ValueProperty.get,
      ValueProperty.applyConstraints, Rect.sumLambda, accumulate, hr, hb]

theorem mem_eraseIdx_of_ne {α : Type} (l : List α) (k : Nat) (x y : α) (hx : x ∈ l)
    (hk : l[k]? = some y) (hne : x ≠ y) : x ∈ l.eraseIdx k := by
  induction l generalizing k with
  | nil => cases hx
  | cons a rest ih =>
    cases k with
    | zero =>
      simp only [List.getElem?_cons_zero, Option.some.injEq] at hk
      subst hk
      rcases List.mem_cons.1 hx with h | h
      · exact absurd h hne
      · simpa using h
    | succ k =>
      simp only [List.getElem?_cons_succ] at hk
      rw [List.eraseIdx_cons_succ]
      rcases List.mem_cons.1 hx with h | h
      · exact h ▸ List.mem_cons_self _ _
      · exact List.mem_cons_of_mem _ (ih k h hk)

theorem ne_of_mem_eraseP {E T : Type} (l : List (ConstraintID × Constraint E T))
    (c : ConstraintID) (hnd : (l.map Prod.fst).Nodup) (n : ConstraintID × Constraint E T)
    (hn : n ∈ l.eraseP (fun m => m.1 == c)) : n.1 ≠ c := by
  induction l with
  | nil => cases hn
  | cons a rest ih =>
    rw [List.map_cons, List.nodup_cons] at hnd
    by_cases ha : a.1 = c
    · rw [List.eraseP_cons_of_pos (by simpa using ha)] at hn
      intro h
      exact hnd.1 (List.mem_map.2 ⟨n, hn, by rw [h, ha]⟩)
    · rw [List.eraseP_cons_of_neg (by simpa using ha)] at hn
      rcases List.mem_cons.1 hn with h | h
      · rw [h]; exact ha
      · exact ih hnd.2 h

theorem RectWorld.onlyTransitions_of_same (s s' : RectWorld)
    (hchain : ∀ side, (s'.rect.side side).constraints = (s.rect.side side).constraints)
    (hlive : s'.live = s.live) (h : s.OnlyTransitions) : s'.OnlyTransitions := by
  intro side
  rw [hchain side, hlive]
  exact h side

theorem RectWorld.onlyTransitions_step (s : RectWorld) (op : RectOp)
    (hd : s.rect.DerivedWired) (h : s.OnlyTransitions) (hop : op.isAdd = false) :
    (s.step op).OnlyTransitions := by
  cases op with
  | set side₀ v =>
    refine RectWorld.onlyTransitions_of_same s _ ?_ rfl h
    intro side
    by_cases hs : side = side₀
    · subst hs
      simp only [RectWorld.step, Rect.side_setSide_same]
      rfl
    · simp only [RectWorld.step, Rect.side_setSide_ne _ _ _ _ hs]
  | get side₀ =>
    refine RectWorld.onlyTransitions_of_same s _ ?_ rfl h
    intro side
    by_cases hs : side = side₀
    · subst hs
      simp only [RectWorld.step, Rect.side_setSide_same]
      rfl
    · simp only [RectWorld.step, Rect.side_setSide_ne _ _ _ _ hs]
  | getRight =>
    exact RectWorld.onlyTransitions_of_same s _
      (fun side => (Rect.side_getRight s.rect s.phases hd side).1) rfl h
  | getBottom =>
    exact RectWorld.onlyTransitions_of_same s _
      (fun side => (Rect.side_getRight s.rect s.phases hd side).2) rfl h
  | addConstraint side₀ c => simp [RectOp.isAdd] at hop
  | removeConstraint side₀ cid =>
    intro side
    by_cases hs : side = side₀
    · subst hs
      simp only [RectWorld.step, Rect.side_setSide_same, ValueProperty.removeConstraint]
      refine ⟨(h side).1.sublist ((List.eraseP_sublist _).map _), ?_⟩
      intro n hn
      exact (h side).2 n (List.mem_of_mem_eraseP hn)
    · simp only [RectWorld.step, Rect.side_setSide_ne _ _ _ _ hs]
      exact h side
  | construct side₀ target =>
    intro side
    by_cases hs : side = side₀
    · subst hs
      simp only [RectWorld.step, Rect.side_setSide_same, Transition.ctor,
        ValueProperty.addConstraint, push_back]
      refine ⟨?_, ?_⟩
      · rw [List.map_append, List.nodup_append]
        refine ⟨(h side).1, List.nodup_singleton _, ?_⟩
        intro x hx hx'
        obtain ⟨n, hn, rfl⟩ := List.mem_map.1 hx
        simp only [List.map_cons, List.map_nil, List.mem_singleton] at hx'
        exact absurd hx' (Nat.ne_of_lt (lt_freshNode _ n hn))
      · intro n hn
        rcases List.mem_append.1 hn with hn | hn
        · obtain ⟨t, ht, hnt⟩ := (h side).2 n hn
          exact ⟨t, List.mem_append_left _ ht, hnt⟩
        · rw [List.mem_singleton] at hn
          exact ⟨_, List.mem_append_right _ (List.mem_singleton.2 rfl), hn⟩
    · simp only [RectWorld.step, Rect.side_setSide_ne _ _ _ _ hs]
      refine ⟨(h side).1, ?_⟩
      intro n hn
      obtain ⟨t, ht, hnt⟩ := (h side).2 n hn
      exact ⟨t, List.mem_append_left _ ht, hnt⟩
  | setPhase k p =>
    simp only [RectWorld.step]
    cases s.live[k]? with
    | none => exact h
    | some st => exact h
  | destroy k =>
    simp only [RectWorld.step]
    cases hk : s.live[k]? with
    | none => exact h
    | some st =>
      intro side
      by_cases hs : side = st.1
      · subst hs
        simp only [Rect.side_setSide_same, Transition.dtor, ValueProperty.removeConstraint]
        refine ⟨(h st.1).1.sublist ((List.eraseP_sublist _).map _), ?_⟩
        intro n hn
        obtain ⟨t, ht, hnt⟩ := (h st.1).2 n (List.mem_of_mem_eraseP hn)
        have hne := ne_of_mem_eraseP _ _ (h st.1).1 n hn
        refine ⟨t, mem_eraseIdx_of_ne s.live k _ st ht hk ?_, hnt⟩
        intro heq
        apply hne
        have : t = st.2 := by rw [← heq]
        rw [hnt, this]
        rfl
      · simp only [Rect.side_setSide_ne _ _ _ _ hs]
        refine ⟨(h side).1, ?_⟩
        intro n hn
        obtain ⟨t, ht, hnt⟩ := (h side).2 n hn
        refine ⟨t, mem_eraseIdx_of_ne s.live k _ st ht hk ?_, hnt⟩
        intro heq
        apply hs
        rw [← heq]

theorem RectWorld.onlyTransitions_run (phases : Phases) (ops : List RectOp)
    (hops : ∀ op ∈ ops, op.isAdd = false) : (RectWorld.run phases ops).OnlyTransitions := by
  have h : ∀ (ops : List RectOp) (s : RectWorld), (∀ op ∈ ops, op.isAdd = false) →
      s.rect.DerivedWired → s.OnlyTransitions →
      (ops.foldl RectWorld.step s).OnlyTransitions := by
    intro ops
    induction ops with
    | nil => exact fun _ _ _ h => h
    | cons op rest ih =>
      intro s hops hd hs
      exact ih (s.step op) (fun o ho => hops o (List.mem_cons_of_mem _ ho))
        (RectWorld.derivedWired_step s op hd)
        (RectWorld.onlyTransitions_step s op hd hs (hops op (List.mem_cons_self _ _)))
  refine h ops _ hops ⟨rfl, rfl⟩ ?_
  intro side
  cases side <;> simp [Rect.side, Rect.new, Rect.setConstraints, Property.default]

theorem accumulate_settled (ph : Phases) (chain : List (ConstraintID × Constraint Phases ℚ))
    (h : ∀ n ∈ chain, ∃ t : Transition, (ph t.self = 0 ∨ ph t.self = 1) ∧ n = t.node) :
    ∃ G : ℚ → ℚ, (∀ v, accumulate chain v ph = (G v, ph)) ∧
      ((∀ v, G v = v) ∨ ∃ c, ∀ v, G v = c) := by
  induction chain with
  | nil => exact ⟨id, fun _ => rfl, Or.inl fun _ => rfl⟩
  | cons n rest ih =>
    obtain ⟨G, hG, hflat⟩ := ih (fun m hm => h m (List.mem_cons_of_mem _ hm))
    obtain ⟨t, hph, rfl⟩ := h n (List.mem_cons_self _ _)
    rcases hph with h0 | h1
    · refine ⟨G, ?_, hflat⟩
      intro v
      simp [accumulate, Transition.node, Transition.lambda, h0, hG]
    · refine ⟨fun _ => G t.target_value, ?_, Or.inr ⟨G t.target_value, fun _ => rfl⟩⟩
      intro v
      simp [accumulate, Transition.node, Transition.lambda, h1, hG]

theorem Rect.sums_iff (r : Rect) (ph : Phases) (hd : r.DerivedWired) (Ga Gb Gc Ge : ℚ → ℚ)
    (hl : ∀ v, accumulate r.left.constraints v ph = (Ga v, ph))
    (hw : ∀ v, accumulate r.width.constraints v ph = (Gb v, ph))
    (ht : ∀ v, accumulate r.top.constraints v ph = (Gc v, ph))
    (hh : ∀ v, accumulate r.height.constraints v ph = (Ge v, ph)) :
    (r.getRight ph).1 = Ga r.left.value + Gb r.width.value ∧
    (r.getBottom ph).1 = Gc r.top.value + Ge r.height.value ∧
    (r.rightIsSum ph ↔
      Ga r.left.value + Gb r.width.value
        = Ga (Ga r.left.value) + Gb (Gb r.width.value)) ∧
    (r.bottomIsSum ph ↔
      Gc r.top.value + Ge r.height.value
        = Gc (Gc r.top.value) + Ge (Ge r.height.value)) := by
  obtain ⟨hr, hb⟩ := hd
  refine ⟨?_, ?_, ?_, ?_⟩ <;>
    simp [Rect.rightIsSum, Rect.bottomIsSum, Rect.getRight, Rect.getBottom, Rect.getLeft,
      Rect.getTop, Rect.getWidth, Rect.getHeight, ValueProperty.get,
      ValueProperty.applyConstraints, Rect.sumLambda, accumulate, hr, hb, hl, hw, ht, hh]

/-- C17, as stated, fails: on a fresh `Rect`, with a `Transition` towards 10
constructed on `left` and its phase set to 1/2, `right.get()` returns 5 and
the reads `left.get() + width.get()` made after it return 15/2; the same on
`top` for `bottom`. -/
theorem C17_counterexample :
    ¬ (RectWorld.run (fun _ => 0) [.construct .left 10, .setPhase 0 (1 / 2)]).rect.rightIsSum
        (RectWorld.run (fun _ => 0) [.construct .left 10, .setPhase 0 (1 / 2)]).phases ∧
    ¬ (RectWorld.run (fun _ => 0) [.construct .top 10, .setPhase 0 (1 / 2)]).rect.bottomIsSum
        (RectWorld.run (fun _ => 0) [.construct .top 10, .setPhase 0 (1 / 2)]).phases := by
  constructor <;>
    norm_num [RectWorld.run, RectWorld.step, Rect.setSide, Rect.side, Rect.rightIsSum,
      Rect.bottomIsSum, Rect.getRight, Rect.getBottom, Rect.getLeft, Rect.getTop, Rect.getWidth,
      Rect.getHeight, Rect.new, Rect.setConstraints, push_back, freshNode, Property.default,
      DependentProperty.default, Transition.ctor, Transition.setPhase, freshObject,
      ValueProperty.addConstraint, ValueProperty.get, ValueProperty.applyConstraints,
      Rect.sumLambda, accumulate, Transition.lambda, Function.update]

/-- C17, amended: in every state of a `Rect` reached by any sequence of
`set()`, `get()`, `addConstraint`, `removeConstraint` and `Transition`
construction, `setPhase` and destruction on left, top, width and height (and
reads of right and bottom), `right.get()` returns the sum of `left.get()` and
`width.get()` as read inside that call, whatever is stored in `right`, and
`bottom.get()` the sum of `top.get()` and `height.get()`.  When the closures
on the four members only read (folds `Ga`, `Gb`, `Gc`, `Ge` at the current
phases), `right.get()` followed by `left.get() + width.get()` yields equal
values exactly when `Ga l + Gb w = Ga (Ga l) + Gb (Gb w)` for the stored `l`
and `w`, and likewise for bottom.  They are equal, for right and for bottom,
in every state reached without a client `addConstraint` in which every live
`Transition` has phase 0 or 1 (so also when there is none).  With one
`Transition` towards `t` at phase `p` on a left that stores `b`, they are
equal exactly when `b = t`, `p = 0` or `p = 1`. -/
theorem C17_rect_sums_when_reads_repeat (phases : Phases) (ops : List RectOp) :
    ((RectWorld.run phases ops).rect.getRight (RectWorld.run phases ops).phases).1
      = Rect.sumInside (RectWorld.run phases ops).rect.left (RectWorld.run phases ops).rect.width
          (RectWorld.run phases ops).phases ∧
    ((RectWorld.run phases ops).rect.getBottom (RectWorld.run phases ops).phases).1
      = Rect.sumInside (RectWorld.run phases ops).rect.top (RectWorld.run phases ops).rect.height
          (RectWorld.run phases ops).phases ∧
    (∀ Ga Gb Gc Ge : ℚ → ℚ,
      (∀ v, accumulate (RectWorld.run phases ops).rect.left.constraints v
          (RectWorld.run phases ops).phases = (Ga v, (RectWorld.run phases ops).phases)) →
      (∀ v, accumulate (RectWorld.run phases ops).rect.width.constraints v
          (RectWorld.run phases ops).phases = (Gb v, (RectWorld.run phases ops).phases)) →
      (∀ v, accumulate (RectWorld.run phases ops).rect.top.constraints v
          (RectWorld.run phases ops).phases = (Gc v, (RectWorld.run phases ops).phases)) →
      (∀ v, accumulate (RectWorld.run phases ops).rect.height.constraints v
          (RectWorld.run phases ops).phases = (Ge v, (RectWorld.run phases ops).phases)) →
      ((RectWorld.run phases ops).rect.rightIsSum (RectWorld.run phases ops).phases ↔
        Ga (RectWorld.run phases ops).rect.left.value
            + Gb (RectWorld.run phases ops).rect.width.value
          = Ga (Ga (RectWorld.run phases ops).rect.left.value)
            + Gb (Gb (RectWorld.run phases ops).rect.width.value)) ∧
      ((RectWorld.run phases ops).rect.bottomIsSum (RectWorld.run phases ops).phases ↔
        Gc (RectWorld.run phases ops).rect.top.value
            + Ge (RectWorld.run phases ops).rect.height.value
          = Gc (Gc (RectWorld.run phases ops).rect.top.value)
            + Ge (Ge (RectWorld.run phases ops).rect.height.value))) ∧
    ((∀ op ∈ ops, op.isAdd = false) →
      (∀ st ∈ (RectWorld.run phases ops).live,
        (RectWorld.run phases ops).phases st.2.self = 0 ∨
          (RectWorld.run phases ops).phases st.2.self = 1) →
      (RectWorld.run phases ops).rect.rightIsSum (RectWorld.run phases ops).phases ∧
      (RectWorld.run phases ops).rect.bottomIsSum (RectWorld.run phases ops).phases) ∧
    (∀ b w t p : ℚ,
      (RectWorld.run phases
          [.set .left b, .set .width w, .construct .left t, .setPhase 0 p]).rect.rightIsSum
        (RectWorld.run phases
          [.set .left b, .set .width w, .construct .left t, .setPhase 0 p]).phases
      ↔ (b = t ∨ p = 0 ∨ p = 1)) := by
  have hd := RectWorld.derivedWired_run phases ops
  refine ⟨(Rect.derivedWired_reads _ _ hd).1, (Rect.derivedWired_reads _ _ hd).2.1, ?_, ?_, ?_⟩
  · intro Ga Gb Gc Ge hl hw ht hh
    exact ⟨(Rect.sums_iff _ _ hd Ga Gb Gc Ge hl hw ht hh).2.2.1,
      (Rect.sums_iff _ _ hd Ga Gb Gc Ge hl hw ht hh).2.2.2⟩
  · intro hops hph
    have hot := RectWorld.onlyTransitions_run phases ops hops
    have hside : ∀ side : Side, ∃ G : ℚ → ℚ,
        (∀ v, accumulate ((RectWorld.run phases ops).rect.side side).constraints v
          (RectWorld.run phases ops).phases = (G v, (RectWorld.run phases ops).phases)) ∧
        ∀ v, G (G v) = G v := by
      intro side
      obtain ⟨G, hG, hflat⟩ := accumulate_settled (RectWorld.run phases ops).phases
        ((RectWorld.run phases ops).rect.side side).constraints
        (fun n hn => by
          obtain ⟨t, ht, hnt⟩ := (hot side).2 n hn
          exact ⟨t, hph (side, t) ht, hnt⟩)
      refine ⟨G, hG, ?_⟩
      intro v
      rcases hflat with hid | ⟨c, hc⟩
      · rw [hid, hid]
      · rw [hc, hc]
    obtain ⟨Ga, hl, ia⟩ := hside .left
    obtain ⟨Gb, hw, ib⟩ := hside .width
    obtain ⟨Gc, ht, ic⟩ := hside .top
    obtain ⟨Ge, hh, ie⟩ := hside .height
    obtain ⟨_, _, h₁, h₂⟩ := Rect.sums_iff _ _ hd Ga Gb Gc Ge hl hw ht hh
    exact ⟨h₁.2 (by rw [ia, ib]), h₂.2 (by rw [ic, ie])⟩
  · intro b w t p
    have hd' := RectWorld.derivedWired_run phases
      [.set .left b, .set .width w, .construct .left t, .setPhase 0 p]
    have key := (Rect.sums_iff
      (RectWorld.run phases
        [.set .left b, .set .width w, .construct .left t, .setPhase 0 p]).rect
      (RectWorld.run phases
        [.set .left b, .set .width w, .construct .left t, .setPhase 0 p]).phases
      hd' (fun v => v * (1 - p) + t * p) id id id
      (fun v => by
        simp [RectWorld.run, RectWorld.step, Rect.setSide, Rect.side, Rect.new,
          Rect.setConstraints, Property.default, Property.set, Transition.ctor,
          Transition.setPhase, freshObject, ValueProperty.addConstraint, push_back, freshNode,
          accumulate, Transition.lambda])
      (fun v => by
        simp [RectWorld.run, RectWorld.step, Rect.setSide, Rect.side, Rect.new,
          Rect.setConstraints, Property.default, Property.set, Transition.ctor,
          ValueProperty.addConstraint, accumulate])
      (fun v => by
        simp [RectWorld.run, RectWorld.step, Rect.setSide, Rect.side, Rect.new,
          Rect.setConstraints, Property.default, Property.set, Transition.ctor,
          ValueProperty.addConstraint, accumulate])
      (fun v => by
        simp [RectWorld.run, RectWorld.step, Rect.setSide, Rect.side, Rect.new,
          Rect.setConstraints, Property.default, Property.set, Transition.ctor,
          ValueProperty.addConstraint, accumulate])).2.2.1
    rw [key]
    have hlv : (RectWorld.run phases
        [.set .left b, .set .width w, .construct .left t, .setPhase 0 p]).rect.left.value
        = b := by
      simp [RectWorld.run, RectWorld.step, Rect.setSide, Rect.side, Property.set,
        Transition.ctor, ValueProperty.addConstraint]
    have hwv : (RectWorld.run phases
        [.set .left b, .set .width w, .construct .left t, .setPhase 0 p]).rect.width.value
        = w := by
      simp [RectWorld.run, RectWorld.step, Rect.setSide, Rect.side, Property.set,
        Transition.ctor, ValueProperty.addConstraint]
    rw [hlv, hwv]
    simp only [id]
    constructor
    · intro h
      have hz : (b - t) * (p * (1 - p)) = 0 := by linear_combination h
      rcases mul_eq_zero.1 hz with h₁ | h₂
      · exact Or.inl (by linarith)
      · rcases mul_eq_zero.1 h₂ with h₃ | h₄
        · exact Or.inr (Or.inl h₃)
        · exact Or.inr (Or.inr (by linarith))
    · rintro (rfl | rfl | rfl) <;> ring

/-- C17 amended, on a `Transition` on left driven to phase 1: no client
`addConstraint`, the one live `Transition` at phase 1, and the comparison
for right holds. -/
theorem C17_rect_sums_when_reads_repeat_witness :
    (∀ op ∈ [RectOp.set .left 3, .construct .left 10, .setPhase 0 1], op.isAdd = false) ∧
    (∀ st ∈ (RectWorld.run (fun _ => 0)
        [.set .left 3, .construct .left 10, .setPhase 0 1]).live,
      (RectWorld.run (fun _ => 0) [.set .left 3, .construct .left 10, .setPhase 0 1]).phases
          st.2.self = 0 ∨
        (RectWorld.run (fun _ => 0) [.set .left 3, .construct .left 10, .setPhase 0 1]).phases
          st.2.self = 1) ∧
    (RectWorld.run (fun _ => 0) [.set .left 3, .construct .left 10, .setPhase 0 1]).rect.rightIsSum
      (RectWorld.run (fun _ => 0) [.set .left 3, .construct .left 10, .setPhase 0 1]).phases :=
  have h₁ : ∀ op ∈ [RectOp.set .left 3, .construct .left 10, .setPhase 0 1],
      op.isAdd = false := by
    intro op hop
    simp only [List.mem_cons, List.mem_singleton, List.not_mem_nil, or_false] at hop
    rcases hop with rfl | rfl | rfl <;> rfl
  have h₂ : ∀ st ∈ (RectWorld.run (fun _ => 0)
        [.set .left 3, .construct .left 10, .setPhase 0 1]).live,
      (RectWorld.run (fun _ => 0) [.set .left 3, .construct .left 10, .setPhase 0 1]).phases
          st.2.self = 0 ∨
        (RectWorld.run (fun _ => 0) [.set .left 3, .construct .left 10, .setPhase 0 1]).phases
          st.2.self = 1 := by
    intro st hst
    simp [RectWorld.run, RectWorld.step, Transition.ctor, freshObject] at hst
    subst hst
    right
    simp [RectWorld.run, RectWorld.step, Transition.ctor, Transition.setPhase, freshObject]
  ⟨h₁, h₂, ((C17_rect_sums_when_reads_repeat (fun _ => 0)
    [.set .left 3, .construct .left 10, .setPhase 0 1]).2.2.2.1 h₁ h₂).1⟩

/-! ## External cancellation of a timer -/

theorem TimedTransition.taskWith_succ (during : TimerWorld → TimerWorld) (t : Transition)
    (_steps : Int) (w : TimerWorld) (n : Nat) :
    TimedTransition.taskWith during t _steps w (n + 1)
      = timerStep TimedTransition.ready (TimedTransition.handler t _steps) during
          (TimedTransition.taskWith during t _steps w n) :=
  Function.iterate_succ_apply' _ _ _

theorem TimedTransition.taskWith_finished (during : TimerWorld → TimerWorld) (t : Transition)
    (_steps : Int) (w final : TimerWorld) (n : Nat)
    (h : TimedTransition.taskWith during t _steps w n = .finished final) (m : Nat) :
    TimedTransition.taskWith during t _steps w (n + m) = .finished final := by
  induction m with
  | zero => exact h
  | succ m ih => rw [← Nat.add_assoc, TimedTransition.taskWith_succ, ih]; rfl

theorem TimedTransition.cancelled_running (t : Transition) (n : Nat) (hn : (n : Int) ≤ 2147483647)
    (ph : Phases) (k : Nat) (hk : k ≤ n) (j : Nat) (hj : j ≤ k) :
    ∃ wj : TimerWorld,
      TimedTransition.taskWith (TimedTransition.cancelAfter k) t n (TimedTransition.start ph) j
        = .running j wj ∧
      wj.brake = false ∧
      wj.out = (List.range j).map (TimedTransition.line n) := by
  induction j with
  | zero => exact ⟨TimedTransition.start ph, rfl, rfl, rfl⟩
  | succ j ih =>
    obtain ⟨wj, hrun, hb, ho⟩ := ih (Nat.le_of_succ_le hj)
    have hne : ¬ ((j : Int) = (n : Int)) := by omega
    have hlen : wj.out.length = j := by simp [ho]
    have hdur : TimedTransition.cancelAfter k wj = wj := by
      have : ¬ (j = k) := by omega
      simp [TimedTransition.cancelAfter, hlen, this]
    refine ⟨TimedTransition.handler t n j wj, ?_, ?_, ?_⟩
    · rw [TimedTransition.taskWith_succ, hrun]
      have hw : wrapInt32 ((j : Int) + 1) = ((j + 1 : Nat) : Int) := by
        rw [wrapInt32_eq_self] <;> omega
      simp [timerStep, hdur, TimedTransition.ready, hb, hw]
    · simp [TimedTransition.handler, hne, hb]
    · simp [TimedTransition.handler, ho, List.range_succ, TimedTransition.line,
        Transition.setPhase]

theorem TimedTransition.cancelAfter_late (t : Transition) (n : Nat)
    (hn : (n : Int) ≤ 2147483647) (ph : Phases) (m : Nat) :
    TimedTransition.taskWith (TimedTransition.cancelAfter (n + 1)) t n (TimedTransition.start ph) m
      = TimedTransition.task t n (TimedTransition.start ph) m := by
  induction m with
  | zero => rfl
  | succ m ih =>
    rw [TimedTransition.taskWith_succ, TimedTransition.task_succ, ih]
    obtain ⟨final, hlast, hbrake, hout, hfin⟩ := TimedTransition.task_last t n hn ph
    rcases Nat.lt_or_ge m (n + 1) with hlt | hge
    · obtain ⟨wm, hrun, hb, ho⟩ :=
        TimedTransition.task_running t n hn ph m (Nat.le_of_lt_succ hlt)
      have hdur : TimedTransition.cancelAfter (n + 1) wm = wm := by
        have : ¬ (m = n + 1) := by omega
        simp [TimedTransition.cancelAfter, ho, this]
      rw [hrun]
      simp only [timerStep, hdur, id]
    · rcases Nat.eq_or_lt_of_le hge with heq | hgt
      · subst heq
        have hdur : TimedTransition.cancelAfter (n + 1) final = final := by
          simp [TimedTransition.cancelAfter, TimedTransition.cancel, hbrake]
        rw [hlast]
        simp only [timerStep, hdur, id]
      · obtain ⟨d, rfl⟩ : ∃ d, m = n + 2 + d := ⟨m - (n + 2), by omega⟩
        rw [TimedTransition.task_finished t n (TimedTransition.start ph) final (n + 2) hfin d]
        rfl

/-- C18: in the step relation of the timer, a task past its loop stays
there, and a task whose signal is raised at the end of a wait leaves the loop
without calling the handler; for a `TimedTransition` with `1 ≤ steps` whose
owner calls `cancel()` after `k ≤ steps` ticks, the loop ends after the
handler has run exactly `k` times, with the indices `0, .., k-1` in this
order, the call with index `steps` not among them, and further rounds change
nothing; a `cancel()` that comes after the automatic one leaves every state
of the task as it is without it. -/
theorem C18_timer_stops_on_cancel (t : Transition) (steps : Int) (ph : Phases) (k : Nat)
    (h₁ : 1 ≤ steps) (h₂ : steps ≤ 2147483647) (hk : (k : Int) ≤ steps) :
    (∀ (during : TimerWorld → TimerWorld) (w : TimerWorld),
      timerStep TimedTransition.ready (TimedTransition.handler t steps) during (.finished w)
        = .finished w) ∧
    (∀ (during : TimerWorld → TimerWorld) (i : Int) (w : TimerWorld),
      TimedTransition.ready (during w) = true →
      timerStep TimedTransition.ready (TimedTransition.handler t steps) during (.running i w)
        = .finished (during w)) ∧
    (∃ final : TimerWorld,
      (∀ fuel : Nat, k + 1 ≤ fuel →
        startTimer TimedTransition.ready (TimedTransition.handler t steps)
          (TimedTransition.cancelAfter k) fuel (TimedTransition.start ph) = some final) ∧
      (∀ fuel : Nat, fuel ≤ k →
        startTimer TimedTransition.ready (TimedTransition.handler t steps)
          (TimedTransition.cancelAfter k) fuel (TimedTransition.start ph) = none) ∧
      final.out.map Prod.fst = (List.range k).map Int.ofNat ∧
      final.out.length = k ∧
      final.brake = true ∧
      steps ∉ final.out.map Prod.fst) ∧
    (∀ fuel : Nat,
      startTimer TimedTransition.ready (TimedTransition.handler t steps)
          (TimedTransition.cancelAfter (steps.toNat + 1)) fuel (TimedTransition.start ph)
        = startTimer TimedTransition.ready (TimedTransition.handler t steps) id fuel
          (TimedTransition.start ph)) ∧
    (∀ w : TimerWorld, w.brake = true → TimedTransition.cancel w = w) := by
  obtain ⟨n, rfl⟩ : ∃ n : Nat, steps = (n : Int) :=
    ⟨steps.toNat, (Int.toNat_of_nonneg (by omega)).symm⟩
  simp only [Int.toNat_ofNat]
  have hkn : k ≤ n := by omega
  refine ⟨fun _ _ => rfl, ?_, ?_, ?_, ?_⟩
  · intro during i w hr
    simp [timerStep, hr]
  · obtain ⟨wk, hrun, hb, ho⟩ :=
      TimedTransition.cancelled_running t n h₂ ph k hkn k (Nat.le_refl k)
    have hlen : wk.out.length = k := by simp [ho]
    have hdur : TimedTransition.cancelAfter k wk = TimedTransition.cancel wk := by
      simp [TimedTransition.cancelAfter, hlen]
    have hcb : (TimedTransition.cancel wk).brake = true := by
      simp [TimedTransition.cancel, hb]
    have hco : (TimedTransition.cancel wk).out = wk.out := by
      simp [TimedTransition.cancel, hb]
    have hfin : TimedTransition.taskWith (TimedTransition.cancelAfter k) t n
        (TimedTransition.start ph) (k + 1) = .finished (TimedTransition.cancel wk) := by
      rw [TimedTransition.taskWith_succ, hrun]
      simp [timerStep, hdur, TimedTransition.ready, hcb]
    have hfst : (wk.out).map Prod.fst = (List.range k).map Int.ofNat := by
      rw [ho]
      simp [TimedTransition.line, Function.comp_def]
    refine ⟨TimedTransition.cancel wk, ?_, ?_, ?_, ?_, hcb, ?_⟩
    · intro fuel hfuel
      obtain ⟨m, rfl⟩ : ∃ m, fuel = k + 1 + m := ⟨fuel - (k + 1), by omega⟩
      have := TimedTransition.taskWith_finished (TimedTransition.cancelAfter k) t n
        (TimedTransition.start ph) _ (k + 1) hfin m
      unfold TimedTransition.taskWith at this
      simp only [startTimer, this]
    · intro fuel hfuel
      obtain ⟨wj, hrunj, _, _⟩ :=
        TimedTransition.cancelled_running t n h₂ ph k hkn fuel hfuel
      unfold TimedTransition.taskWith at hrunj
      simp only [startTimer, hrunj]
    · rw [hco, hfst]
    · rw [hco, hlen]
    · rw [hco, hfst]
      intro hmem
      obtain ⟨j, hj, hjn⟩ := List.mem_map.1 hmem
      rw [List.mem_range] at hj
      have : (j : Int) = (n : Int) := hjn
      omega
  · intro fuel
    have := TimedTransition.cancelAfter_late t n h₂ ph fuel
    unfold TimedTransition.taskWith TimedTransition.task at this
    simp only [startTimer, this]
  · intro w hw
    simp [TimedTransition.cancel, hw]

/-- C18 at `steps = 4` with `cancel()` after 2 ticks: the handler runs
twice. -/
theorem C18_timer_stops_on_cancel_witness :
    (1 : Int) ≤ 4 ∧ (4 : Int) ≤ 2147483647 ∧ ((2 : Nat) : Int) ≤ 4 ∧
    ∃ final : TimerWorld,
      (∀ fuel : Nat, 2 + 1 ≤ fuel →
        startTimer TimedTransition.ready (TimedTransition.handler ⟨1, 10, 1⟩ 4)
          (TimedTransition.cancelAfter 2) fuel (TimedTransition.start (fun _ => 0))
          = some final) ∧
      (∀ fuel : Nat, fuel ≤ 2 →
        startTimer TimedTransition.ready (TimedTransition.handler ⟨1, 10, 1⟩ 4)
          (TimedTransition.cancelAfter 2) fuel (TimedTransition.start (fun _ => 0)) = none) ∧
      final.out.map Prod.fst = (List.range 2).map Int.ofNat ∧
      final.out.length = 2 ∧
      final.brake = true ∧
      (4 : Int) ∉ final.out.map Prod.fst :=
  ⟨by decide, by decide, by decide,
    (C18_timer_stops_on_cancel ⟨1, 10, 1⟩ 4 (fun _ => 0) 2 (by decide) (by decide)
      (by decide)).2.2.1⟩

end Runway
